import Mathlib

/-!
A shallow embedding of the toy-language compiler (lexer, parser, interpreter)
from the Rust sources `src/lexer.rs`, `src/token.rs`, `src/parser.rs`,
`src/node.rs`, `src/interpreter.rs`, `src/error.rs`, `src/util.rs`.

Modelling conventions:
* The input source is a byte sequence, modelled as `List Nat` (the Rust code
  works on `&[u8]`; bytes are < 256, but none of the definitions need that
  bound).  String slicing (`src.get(range).unwrap()`) is modelled at the byte
  level; the UTF-8 boundary panic cannot fire on the ASCII inputs the claims
  exercise.
* Rust `usize` subtraction that can underflow, `Option::unwrap`,
  `unreachable!` and `assert_eq!` are modelled explicitly: functions that can
  panic return a result type with a dedicated `panicked` constructor.
* The recursive-descent parser is not structurally recursive (and, as proved
  below, does not even terminate on all inputs), so it is embedded with an
  explicit fuel parameter; `fuelOut` marks fuel exhaustion.
* Rust `isize` arithmetic in the interpreter is modelled as 64-bit two's
  complement via an explicit wrap (`wrap64`); literal parsing checks the
  `isize` range exactly as `str::parse::<isize>` does.
-/

namespace Toy

/-- The bytes of an ASCII string, the form in which all concrete inputs of the
specification are fed to the embedded pipeline. -/
def str2bytes (s : String) : List Nat :=
  s.data.map Char.toNat

/-- Bytes back to a string (used where the Rust code slices `&str` for
diagnostic messages). -/
def bytesToString (bs : List Nat) : String :=
  String.mk (bs.map Char.ofNat)

/-- The byte slice `src[a..b]` (half-open). -/
def slice (src : List Nat) (a b : Nat) : List Nat :=
  (src.take b).drop a

/-- `isize::MAX` for the 64-bit target. -/
def isizeMax : Int := 9223372036854775807

/-- `isize::MIN` for the 64-bit target. -/
def isizeMin : Int := -9223372036854775808

/-- 64-bit two's-complement wrap-around, the release-mode semantics of Rust
`isize` arithmetic. -/
def wrap64 (z : Int) : Int :=
  (z + 9223372036854775808) % 18446744073709551616 - 9223372036854775808

/-! ## Token model (`src/token.rs`) -/

/-- `TokenKind` from `src/token.rs`. -/
inductive TokenKind where
  | literal
  | identifier
  | equal
  | leftParen
  | rightParen
  | star
  | minus
  | plus
  | semicolon
  | whitespace
  | unknown
  | endOfFile
deriving DecidableEq, Repr

/-- The `Display` (= `Debug`) rendering of a `TokenKind`. -/
def kindStr : TokenKind → String
  | .literal => "Literal"
  | .identifier => "Identifier"
  | .equal => "Equal"
  | .leftParen => "LeftParen"
  | .rightParen => "RightParen"
  | .star => "Star"
  | .minus => "Minus"
  | .plus => "Plus"
  | .semicolon => "Semicolon"
  | .whitespace => "Whitespace"
  | .unknown => "Unknown"
  | .endOfFile => "EndOfFile"

/-- `Token` from `src/token.rs`: a kind, a half-open byte range
`tokStart..tokStop`, and a 1-based line number. -/
structure Token where
  kind : TokenKind
  tokStart : Nat
  tokStop : Nat
  line : Nat
deriving DecidableEq, Repr

/-! ## Lexer (`src/lexer.rs`) -/

/-- `ByteTokenType` from `src/lexer.rs`. -/
inductive ByteTokenType where
  | NUMBER
  | LETTER
  | SEMICOLON
  | EQUAL
  | L_PAREN
  | R_PAREN
  | STAR
  | PLUS
  | MINUS
  | LINEBREAK
  | WHITESPACE
  | INVALID
deriving DecidableEq, Repr

/-- The 256-entry `BYTE_TOKEN_LOOKUP` table, as a function on byte values.
Entries not listed in the table's initialiser are `INVALID`. -/
def byteTokenLookup (b : Nat) : ByteTokenType :=
  if b = 9 then .WHITESPACE            -- '\t'
  else if b = 10 then .LINEBREAK       -- '\n'
  else if b = 12 then .WHITESPACE      -- '\x0C'
  else if b = 13 then .LINEBREAK       -- '\r'
  else if b = 32 then .WHITESPACE      -- ' '
  else if b = 59 then .SEMICOLON       -- ';'
  else if b = 42 then .STAR            -- '*'
  else if b = 45 then .MINUS           -- '-'
  else if b = 43 then .PLUS            -- '+'
  else if b = 61 then .EQUAL           -- '='
  else if b = 40 then .L_PAREN         -- '('
  else if b = 41 then .R_PAREN         -- ')'
  else if 48 ≤ b ∧ b ≤ 57 then .NUMBER -- '0'..'9'
  else if 97 ≤ b ∧ b ≤ 122 then .LETTER -- 'a'..'z'
  else if 65 ≤ b ∧ b ≤ 90 then .LETTER -- 'A'..'Z'
  else .INVALID

/-- `u8::is_ascii_digit`. -/
def isDigitByte (b : Nat) : Bool := 48 ≤ b ∧ b ≤ 57

/-- `b.is_ascii_alphanumeric() || b == b'_'`. -/
def isIdentByte (b : Nat) : Bool :=
  (48 ≤ b ∧ b ≤ 57) || (97 ≤ b ∧ b ≤ 122) || (65 ≤ b ∧ b ≤ 90) || b = 95

/-- The `Lexer` struct: source bytes, cursor, EOF flag, line counter. -/
structure Lexer where
  src : List Nat
  curr : Nat
  is_eof : Bool
  line_number : Nat
deriving Repr

/-- `Lexer::from_bytes`. -/
def Lexer.from_bytes (src : List Nat) : Lexer :=
  { src := src, curr := 0, is_eof := false, line_number := 1 }

/-- `Lexer::advance`: increment the cursor unless it is already at the end. -/
def Lexer.advance (st : Lexer) : Lexer :=
  if st.curr < st.src.length then { st with curr := st.curr + 1 } else st

/-- The loop of `Lexer::consume_and_return`
(`while self.next_byte().map_or(false, &func) {}`), with explicit fuel:
starting from cursor position `p`, first increment, then keep incrementing
while the byte at the new position satisfies `f`.  The fuel only pads the
recursion; `consumeRun` below always supplies enough. -/
def consumeRunF (fuel : Nat) (src : List Nat) (f : Nat → Bool) (p : Nat) : Nat :=
  match fuel with
  | 0 => p + 1
  | fuel + 1 =>
    match src.get? (p + 1) with
    | some b => if f b then consumeRunF fuel src f (p + 1) else p + 1
    | none => p + 1

/-- The cursor position reached by `Lexer::consume_and_return`'s byte-run
loop; `src.length` steps of fuel always suffice because the cursor strictly
increases and the loop stops at the end of the input. -/
def consumeRun (src : List Nat) (f : Nat → Bool) (p : Nat) : Nat :=
  consumeRunF src.length src f p

/-- `Lexer::lex_token`: produce the next token and successor state, or `none`
once the `EndOfFile` token has been emitted. -/
def lex_token (st : Lexer) : Option (Token × Lexer) :=
  if st.is_eof then
    none
  else if st.src.length ≤ st.curr then
    some (⟨.endOfFile, st.curr, st.curr, st.line_number⟩, { st with is_eof := true })
  else
    let b := st.src.getD st.curr 0
    let startingIndex := st.curr
    let ln := st.line_number
    let res : TokenKind × Lexer :=
      match byteTokenLookup b with
      | .EQUAL => (.equal, st.advance)
      | .L_PAREN => (.leftParen, st.advance)
      | .R_PAREN => (.rightParen, st.advance)
      | .STAR => (.star, st.advance)
      | .PLUS => (.plus, st.advance)
      | .MINUS => (.minus, st.advance)
      | .SEMICOLON => (.semicolon, st.advance)
      | .LINEBREAK =>
          (.whitespace, Lexer.advance { st with line_number := st.line_number + 1 })
      | .WHITESPACE => (.whitespace, st.advance)
      | .INVALID => (.unknown, st.advance)
      | .NUMBER => (.literal, { st with curr := consumeRun st.src isDigitByte st.curr })
      | .LETTER => (.identifier, { st with curr := consumeRun st.src isIdentByte st.curr })
    some (⟨res.1, startingIndex, res.2.curr, ln⟩, res.2)

/-- The token-collection loop shared by `Lexer::lex` and
`Lexer::lex_with_whitespace`, with explicit fuel (the loop provably terminates;
`lexFuel` below always provides enough fuel). -/
def lexLoop (fuel : Nat) (st : Lexer) : List Token :=
  match fuel with
  | 0 => []
  | fuel + 1 =>
    match lex_token st with
    | none => []
    | some (t, st') => t :: lexLoop fuel st'

/-- Fuel that always suffices for `lexLoop` (see `lexLoop_covers`). -/
def lexFuel (st : Lexer) : Nat :=
  st.src.length + 2

/-- `Lexer::lex_with_whitespace`: every token, whitespace included. -/
def lex_with_whitespace (src : List Nat) : List Token :=
  lexLoop (lexFuel (Lexer.from_bytes src)) (Lexer.from_bytes src)

/-- `Lexer::lex`: like `lex_with_whitespace` but dropping `Whitespace`
tokens. -/
def lex (src : List Nat) : List Token :=
  (lex_with_whitespace src).filter (fun t => t.kind ≠ .whitespace)

/-! ## Lexer invariants -/

/-- Termination measure of the token-collection loop. -/
def lexMeasure (st : Lexer) : Nat :=
  (st.src.length + 1 - st.curr) + (if st.is_eof then 0 else 1)

theorem consumeRunF_bounds (src : List Nat) (f : Nat → Bool) :
    ∀ (fuel p : Nat), p < src.length →
      p < consumeRunF fuel src f p ∧ consumeRunF fuel src f p ≤ src.length := by
  intro fuel
  induction fuel with
  | zero =>
    intro p hp
    unfold consumeRunF
    omega
  | succ n ih =>
    intro p hp
    rw [consumeRunF]
    split
    next b hg =>
      have hlt : p + 1 < src.length := (List.get?_eq_some.mp hg).1
      cases hf : f b
      · simp only [hf, Bool.false_eq_true, if_false]
        omega
      · simp only [hf, if_true]
        have := ih (p + 1) hlt
        omega
    next hg =>
      omega

theorem consumeRun_bounds (src : List Nat) (f : Nat → Bool) :
    ∀ p, p < src.length → p < consumeRun src f p ∧ consumeRun src f p ≤ src.length :=
  fun p hp => consumeRunF_bounds src f src.length p hp

/-- The structural facts about one successful `lex_token` step. -/
theorem lex_token_step {st : Lexer} {t : Token} {st' : Lexer}
    (h : lex_token st = some (t, st')) :
    st'.src = st.src ∧ t.tokStart = st.curr ∧ t.tokStop = st'.curr ∧
      (if st.src.length ≤ st.curr
       then t.kind = .endOfFile ∧ st'.curr = st.curr ∧ st'.is_eof = true
       else t.kind ≠ .endOfFile ∧ st.curr < st'.curr ∧ st'.curr ≤ st.src.length ∧
         st'.is_eof = st.is_eof) := by
  by_cases heof : st.is_eof
  · simp [lex_token, heof] at h
  unfold lex_token at h
  simp only [heof, Bool.false_eq_true, if_false] at h
  by_cases hend : st.src.length ≤ st.curr
  · simp only [hend, if_true, Option.some.injEq, Prod.mk.injEq] at h
    obtain ⟨ht, hst⟩ := h
    subst ht; subst hst
    simp [hend]
  · have hlt : st.curr < st.src.length := by omega
    have heof2 : st.is_eof = false := by
      cases hx : st.is_eof
      · rfl
      · exact absurd hx heof
    have hrunD := consumeRun_bounds st.src isDigitByte st.curr hlt
    have hrunL := consumeRun_bounds st.src isIdentByte st.curr hlt
    simp only [hend, if_false, Option.some.injEq, Prod.mk.injEq] at h
    obtain ⟨ht, hst⟩ := h
    subst ht; subst hst
    cases hbt : byteTokenLookup (st.src.getD st.curr 0) <;>
      simp only [hbt] <;>
      simp [Lexer.advance, hlt, hend, heof2] <;>
      omega

end Toy

namespace Toy

/-- The shape of a whitespace-preserving lexed token sequence, starting at
byte offset `a` of an input of length `len`: consecutive half-open ranges with
no gaps and no overlaps, ending in exactly one zero-width `EndOfFile` token at
offset `len`. -/
inductive Covers (len : Nat) : Nat → List Token → Prop where
  | eofTok : ∀ ln, Covers len len [⟨.endOfFile, len, len, ln⟩]
  | cons : ∀ (k : TokenKind) (a b ln : Nat) (ts : List Token),
      k ≠ .endOfFile → a < b → b ≤ len → Covers len b ts →
      Covers len a (⟨k, a, b, ln⟩ :: ts)

theorem lexLoop_eof (fuel : Nat) (st : Lexer) (h : st.is_eof = true) :
    lexLoop fuel st = [] := by
  cases fuel with
  | zero => rfl
  | succ n => simp [lexLoop, lex_token, h]

/-- The core lexer invariant: from any live state the token loop produces a
gap-free, overlap-free cover of the remaining input, terminated by a single
`EndOfFile` token. -/
theorem lexLoop_covers :
    ∀ (fuel : Nat) (st : Lexer), st.is_eof = false → st.curr ≤ st.src.length →
      lexMeasure st ≤ fuel → Covers st.src.length st.curr (lexLoop fuel st) := by
  intro fuel
  induction fuel with
  | zero =>
    intro st h1 h2 h3
    exfalso
    unfold lexMeasure at h3
    rw [h1] at h3
    simp at h3
  | succ n ih =>
    intro st h1 h2 h3
    rw [lexLoop]
    cases hlt : lex_token st with
    | none =>
      exfalso
      unfold lex_token at hlt
      rw [h1] at hlt
      simp only [Bool.false_eq_true, if_false] at hlt
      split at hlt <;> simp at hlt
    | some p =>
      obtain ⟨t, st'⟩ := p
      show Covers st.src.length st.curr (t :: lexLoop n st')
      have hs := lex_token_step hlt
      obtain ⟨hsrc, hstart, hstop, hrest⟩ := hs
      by_cases hend : st.src.length ≤ st.curr
      · rw [if_pos hend] at hrest
        obtain ⟨hk, hc, he⟩ := hrest
        have hcurr : st.curr = st.src.length := by omega
        have hnil : lexLoop n st' = [] := lexLoop_eof n st' he
        rw [hnil]
        have ht : t = ⟨.endOfFile, st.src.length, st.src.length, t.line⟩ := by
          cases t
          simp_all
        rw [ht, hcurr]
        exact Covers.eofTok t.line
      · rw [if_neg hend] at hrest
        obtain ⟨hk, hc, hle, he⟩ := hrest
        have hm : lexMeasure st' ≤ n := by
          unfold lexMeasure at h3 ⊢
          rw [hsrc, he, h1]
          rw [h1] at h3
          simp at h3 ⊢
          omega
        have hcov := ih st' (by rw [he]; exact h1) (by rw [hsrc]; exact hle) hm
        rw [hsrc] at hcov
        have ht : t = ⟨t.kind, st.curr, st'.curr, t.line⟩ := by
          cases t
          simp_all
        rw [ht]
        rw [← hstop]
        exact Covers.cons t.kind st.curr t.tokStop t.line _ hk (by omega) (by omega) (by rw [hstop]; exact hcov)

end Toy

namespace Toy

/-- Gluing a slice onto the rest of the input. -/
theorem slice_append {src : List Nat} {a b : Nat} (hab : a ≤ b) (hb : b ≤ src.length) :
    slice src a b ++ src.drop b = src.drop a := by
  unfold slice
  conv_rhs => rw [← List.take_append_drop b src]
  rw [List.drop_append_eq_append_drop, List.length_take]
  have h1 : min b src.length = b := by omega
  have h2 : a - b = 0 := by omega
  rw [h1, h2, List.drop_zero]

/-- Concatenating the covered slices reconstructs the uncovered suffix. -/
theorem covers_join {src : List Nat} : ∀ {a : Nat} {ts : List Token},
    Covers src.length a ts →
    (ts.map (fun t => slice src t.tokStart t.tokStop)).flatten = src.drop a := by
  intro a ts h
  induction h with
  | eofTok ln =>
    simp [slice, List.drop_eq_nil_of_le]
  | cons k a b ln ts hk hab hble _ ih =>
    simp only [List.map_cons, List.flatten_cons, ih]
    exact slice_append (Nat.le_of_lt hab) hble

/-- The structural consequences of `Covers`: adjacent ranges, a known first
offset, in-bounds half-open ranges, strictness off `EndOfFile`, and a unique
final `EndOfFile` token. -/
theorem covers_facts {len : Nat} : ∀ {a : Nat} {ts : List Token}, Covers len a ts →
    List.Chain' (fun t u => t.tokStop = u.tokStart) ts
    ∧ (∃ t ts', ts = t :: ts' ∧ t.tokStart = a)
    ∧ (∀ t ∈ ts, t.tokStart ≤ t.tokStop ∧ t.tokStop ≤ len)
    ∧ (∀ t ∈ ts, t.kind ≠ .endOfFile → t.tokStart < t.tokStop)
    ∧ ts.countP (fun t => t.kind == .endOfFile) = 1
    ∧ (∃ ln, ts.getLast? = some ⟨.endOfFile, len, len, ln⟩) := by
  intro a ts h
  induction h with
  | eofTok ln =>
    refine ⟨List.chain'_singleton _, ⟨_, _, rfl, rfl⟩, ?_, ?_, ?_, ⟨ln, rfl⟩⟩
    · intro t ht
      simp at ht
      subst ht
      exact ⟨le_rfl, le_rfl⟩
    · intro t ht hk
      simp at ht
      subst ht
      simp at hk
    · rfl
  | cons k a b ln ts hk hab hble hcov ih =>
    obtain ⟨ihchain, ⟨t', ts', hts, hstart⟩, ihbound, ihstrict, ihcount, ihlast⟩ := ih
    refine ⟨?_, ⟨_, _, rfl, rfl⟩, ?_, ?_, ?_, ?_⟩
    · rw [hts]
      rw [hts] at ihchain
      exact List.Chain'.cons (by simp [hstart]) ihchain
    · intro t ht
      rcases List.mem_cons.mp ht with h | h
      · subst h
        exact ⟨Nat.le_of_lt hab, hble⟩
      · exact ihbound t h
    · intro t ht hkk
      rcases List.mem_cons.mp ht with h | h
      · subst h
        exact hab
      · exact ihstrict t h hkk
    · rw [List.countP_cons_of_neg]
      · exact ihcount
      · simp [hk]
    · obtain ⟨ln', hlast⟩ := ihlast
      refine ⟨ln', ?_⟩
      rw [hts]
      rw [hts] at hlast
      rw [List.getLast?_cons_cons]
      exact hlast

/-- The whitespace-preserving lexed sequence of any input is a `Covers`. -/
theorem lex_with_whitespace_covers (src : List Nat) :
    Covers src.length 0 (lex_with_whitespace src) := by
  unfold lex_with_whitespace
  exact lexLoop_covers (lexFuel (Lexer.from_bytes src)) (Lexer.from_bytes src) rfl
    (Nat.zero_le _) (by unfold lexMeasure lexFuel Lexer.from_bytes; simp)

end Toy

namespace Toy

/-- C2: for every input byte sequence, concatenating the source bytes covered
by the ranges of the tokens returned by `lex_with_whitespace`, in output
order, reconstructs the input exactly; the ranges start at offset 0, are
half-open with `tokStart ≤ tokStop` and stay inside the input, and each
token's range begins exactly where the previous one ended (no gaps, no
overlaps). -/
theorem lex_with_whitespace_reconstructs (src : List Nat) :
    ((lex_with_whitespace src).map (fun t => slice src t.tokStart t.tokStop)).flatten = src
    ∧ List.Chain' (fun t u => t.tokStop = u.tokStart) (lex_with_whitespace src)
    ∧ (∃ t ts', lex_with_whitespace src = t :: ts' ∧ t.tokStart = 0)
    ∧ (∀ t ∈ lex_with_whitespace src, t.tokStart ≤ t.tokStop ∧ t.tokStop ≤ src.length) := by
  have hcov := lex_with_whitespace_covers src
  have hjoin := covers_join hcov
  have hfacts := covers_facts hcov
  exact ⟨by rw [hjoin, List.drop_zero], hfacts.1, hfacts.2.1, hfacts.2.2.1⟩

/-- C9: for every input byte sequence the lexed token sequence has half-open,
non-overlapping, monotonically increasing ranges (adjacent, in-bounds, and
zero-width only at `EndOfFile`), ends in exactly one `EndOfFile` token of zero
width positioned at the byte length of the input, and once the `EndOfFile`
token has been emitted (`is_eof` set) the lexer yields no further tokens. -/
theorem lex_ranges_invariant (src : List Nat) :
    List.Chain' (fun t u => t.tokStop = u.tokStart) (lex_with_whitespace src)
    ∧ (∀ t ∈ lex_with_whitespace src, t.tokStart ≤ t.tokStop ∧ t.tokStop ≤ src.length)
    ∧ (∀ t ∈ lex_with_whitespace src, t.kind ≠ .endOfFile → t.tokStart < t.tokStop)
    ∧ (lex_with_whitespace src).countP (fun t => t.kind == .endOfFile) = 1
    ∧ (∃ ln, (lex_with_whitespace src).getLast? =
        some ⟨.endOfFile, src.length, src.length, ln⟩)
    ∧ (∀ st : Lexer, st.is_eof = true → lex_token st = none) := by
  have hfacts := covers_facts (lex_with_whitespace_covers src)
  exact ⟨hfacts.1, hfacts.2.2.1, hfacts.2.2.2.1, hfacts.2.2.2.2.1, hfacts.2.2.2.2.2,
    fun st h => by simp [lex_token, h]⟩

/-- C7 (refutation evidence): the lexer does *not* collapse a maximal run of
whitespace bytes or of invalid bytes into a single token — it emits one
`Whitespace` token per whitespace byte and one `Unknown` token per invalid
byte, while digit and letter runs do collapse into a single token. -/
theorem lexer_no_run_collapse :
    (lex (str2bytes "__")).map Token.kind = [.unknown, .unknown, .endOfFile]
    ∧ (lex_with_whitespace (str2bytes "a  b")).map Token.kind =
        [.identifier, .whitespace, .whitespace, .identifier, .endOfFile]
    ∧ (lex (str2bytes "12 ab")).map Token.kind = [.literal, .identifier, .endOfFile] := by
  decide

end Toy

namespace Toy

/-! ## Diagnostics (`src/error.rs`) and position utilities (`src/util.rs`) -/

/-- `DiagnosticError` from `src/error.rs`: a message with 1-based line and
column. -/
structure DiagnosticError where
  msg : String
  line : Nat
  column : Nat
deriving DecidableEq, Repr

/-- `linebreak_index` from `src/util.rs`: one past the index of the last `\n`
before byte offset `start`, or `0`.  (When `start` exceeds the input length,
Rust's `src.get(..start)` yields `None` and the function returns 0.) -/
def linebreak_index (src : List Nat) (start : Nat) : Nat :=
  if start ≤ src.length then
    match (src.take start).reverse.findIdx? (fun b => b == 10) with
    | some j => start - j
    | none => 0
  else 0

/-- `TokenInfo` from `src/util.rs`. -/
structure TokenInfo where
  line : Nat
  column : Nat
  literal : String
deriving DecidableEq, Repr

/-- `token_info` from `src/util.rs` (the byte-level model of string slicing
is total; Rust's boundary panic cannot fire on the ASCII inputs below, and
`column` uses truncated subtraction exactly like `usize`). -/
def token_info (src : List Nat) (tok : Token) : TokenInfo :=
  { column := tok.tokStop - linebreak_index src tok.tokStart,
    line := tok.line,
    literal := bytesToString (slice src tok.tokStart tok.tokStop) }

/-! ## AST (`src/node.rs`) -/

/-- `Operator` from `src/node.rs`. -/
inductive Operator where
  | plus
  | minus
  | multiply
deriving DecidableEq, Repr

/-- `IdentifierNode` from `src/node.rs` (its `literal: String` is the byte
slice of the source the parser copies out of the identifier token's range). -/
structure IdentifierNode where
  literal : List Nat
  rangeStart : Nat
  rangeStop : Nat
  line : Nat
deriving DecidableEq, Repr

/-- `LiteralNode` from `src/node.rs`. -/
structure LiteralNode where
  value : Int
deriving DecidableEq, Repr

/-- `Node` from `src/node.rs`. -/
inductive Node where
  | program : List Node → Node
  | assignment : Node → Node → Node
  | expression : Node → Node
  | term : Node → Operator → Node → Node
  | fact : Node → Node
  | unaryOperator : Operator → Node → Node
  | identifier : IdentifierNode → Node
  | literal : LiteralNode → Node
deriving Repr

/-! ## Integer literal parsing (`str::parse::<isize>` on a 64-bit target) -/

/-- The error kinds of `std::num::IntErrorKind` that literal parsing can
produce. -/
inductive IntErrorKind where
  | empty
  | invalidDigit
  | posOverflow
  | negOverflow
deriving DecidableEq, Repr

/-- Decimal value of a digit-only byte string. -/
def digitsToNat? (bs : List Nat) : Option Nat :=
  bs.foldl
    (fun acc b =>
      match acc with
      | none => none
      | some v => if 48 ≤ b ∧ b ≤ 57 then some (v * 10 + (b - 48)) else none)
    (some 0)

/-- `str::parse::<isize>` on the bytes of the literal: an optional sign
followed by decimal digits, range-checked against 64-bit `isize`. -/
def parse_isize (bs : List Nat) : Except IntErrorKind Int :=
  match bs with
  | [] => .error .empty
  | b :: rest =>
    let signed : Bool × List Nat :=
      if b = 43 then (false, rest) else if b = 45 then (true, rest) else (false, bs)
    match signed.2 with
    | [] => .error .invalidDigit
    | _ =>
      match digitsToNat? signed.2 with
      | none => .error .invalidDigit
      | some v =>
        if signed.1 then
          if (v : Int) > 9223372036854775808 then .error .negOverflow
          else .ok (-(v : Int))
        else
          if (v : Int) > isizeMax then .error .posOverflow
          else .ok (v : Int)

end Toy

namespace Toy

/-! ## Parser (`src/parser.rs`) -/

/-- Results of an embedded parser computation: a value, a Rust panic
(`unwrap` on `None`, `usize` underflow, `unreachable!`, failed `assert_eq!`),
or fuel exhaustion of the embedding. -/
inductive PRes (α : Type) where
  | ok : α → PRes α
  | panicked : PRes α
  | fuelOut : PRes α
deriving Repr

instance {ε α : Type} [DecidableEq ε] [DecidableEq α] : DecidableEq (Except ε α)
  | .ok a, .ok b =>
    if h : a = b then isTrue (by rw [h])
    else isFalse (by intro hc; cases hc; exact h rfl)
  | .ok _, .error _ => isFalse (by intro hc; cases hc)
  | .error _, .ok _ => isFalse (by intro hc; cases hc)
  | .error a, .error b =>
    if h : a = b then isTrue (by rw [h])
    else isFalse (by intro hc; cases hc; exact h rfl)

instance {α : Type} [DecidableEq α] : DecidableEq (PRes α)
  | .ok a, .ok b =>
    if h : a = b then isTrue (by rw [h])
    else isFalse (by intro hc; cases hc; exact h rfl)
  | .ok _, .panicked => isFalse (by intro hc; cases hc)
  | .ok _, .fuelOut => isFalse (by intro hc; cases hc)
  | .panicked, .ok _ => isFalse (by intro hc; cases hc)
  | .panicked, .panicked => isTrue rfl
  | .panicked, .fuelOut => isFalse (by intro hc; cases hc)
  | .fuelOut, .ok _ => isFalse (by intro hc; cases hc)
  | .fuelOut, .panicked => isFalse (by intro hc; cases hc)
  | .fuelOut, .fuelOut => isTrue rfl

/-- `LexerManager::current_token`. -/
def current_token (tokens : List Token) (pos : Nat) : Option Token :=
  tokens.get? pos

/-- `LexerManager::advance`: a no-op once the cursor is at the end. -/
def advanceTok (tokens : List Token) (pos : Nat) : Nat :=
  if pos < tokens.length then pos + 1 else pos

/-- `LexerManager::previous_token` combined with the `.unwrap()` at its call
sites.  `token_pos - 1` underflows when `token_pos = 0`: a `usize` overflow
panic in debug builds; in release builds the wrapped index makes `get` return
`None` and the `unwrap` panics.  Either way every build profile panics, which
the model reports as `panicked`. -/
def previous_token_unwrap (tokens : List Token) (pos : Nat) : PRes Token :=
  if pos = 0 then .panicked
  else
    match tokens.get? (pos - 1) with
    | some t => .ok t
    | none => .panicked

mutual

/-- `Parser::parse_fact`.  Returns the Rust `Result` plus the cursor position
after the call.  The Rust `Some(other)` arm (line 415) is dead code: the
guarded first arm already catches every kind other than the five fact
starters, so `plus` is the final live case here. -/
def parse_fact (src : List Nat) (tokens : List Token) :
    Nat → Nat → PRes (Except DiagnosticError Node × Nat)
  | 0, _ => .fuelOut
  | fuel + 1, pos =>
    match current_token tokens pos with
    | some x =>
      if ¬(x.kind = .literal ∨ x.kind = .identifier ∨ x.kind = .leftParen ∨
           x.kind = .minus ∨ x.kind = .plus) then
        let eof := x.kind = .endOfFile
        let pos' := if eof then pos else advanceTok tokens pos
        let ti := token_info src x
        .ok (.error ⟨"Expected either `+`, `-`, `(`, an `Identifier`, or a `Literal`, but found `"
              ++ ti.literal ++ "` (" ++ kindStr x.kind ++ ")",
            ti.line, if eof then ti.column + 1 else ti.column⟩, pos')
      else if x.kind = .literal then
        let pos1 := advanceTok tokens pos
        let numBytes := slice src x.tokStart x.tokStop
        let numStr := bytesToString numBytes
        if numBytes.head? = some 48 ∧ 1 < numBytes.length then
          .ok (.error ⟨"The integer, `" ++ numStr
                ++ "`, is invalid. literals must be either 0 or non-zero digits.",
              x.line, x.tokStart + 1 - linebreak_index src x.tokStart⟩, pos1)
        else
          match parse_isize numBytes with
          | .ok num => .ok (.ok (.literal ⟨num⟩), pos1)
          | .error e =>
            if e = .negOverflow ∨ e = .posOverflow then
              .ok (.error ⟨"The integer,`" ++ numStr
                    ++ "`, is invalid. integers must be in the range [-9223372036854775808, 9223372036854775807].",
                  x.line, x.tokStart + 1 - linebreak_index src x.tokStart⟩, pos1)
            else
              .panicked
      else if x.kind = .identifier then
        .ok (.ok (.identifier ⟨slice src x.tokStart x.tokStop, x.tokStart, x.tokStop, x.line⟩),
          advanceTok tokens pos)
      else if x.kind = .leftParen then
        match parse_expr src tokens fuel (advanceTok tokens pos) with
        | .ok (.ok expr, pos2) =>
          (match current_token tokens pos2 with
           | some y =>
             if y.kind = .rightParen then
               .ok (.ok (.fact expr), advanceTok tokens pos2)
             else
               let pos3 := advanceTok tokens pos2
               (match previous_token_unwrap tokens pos3 with
                | .ok expr_token =>
                  let expr_ti := token_info src expr_token
                  let curr_ti := token_info src y
                  .ok (.error ⟨"Expected a `)` after `" ++ expr_ti.literal ++ "`, but found `"
                        ++ curr_ti.literal ++ "`", curr_ti.line, curr_ti.column⟩, pos3)
                | .panicked => .panicked
                | .fuelOut => .fuelOut)
           | none =>
             (match previous_token_unwrap tokens pos2 with
              | .ok expr_token =>
                let expr_ti := token_info src expr_token
                .ok (.error ⟨"Expected a `)` after `" ++ expr_ti.literal ++ "`.", x.line,
                    expr_token.tokStop - linebreak_index src expr_token.tokStart⟩, pos2)
              | .panicked => .panicked
              | .fuelOut => .fuelOut))
        | .ok (.error e, pos2) => .ok (.error e, pos2)
        | .panicked => .panicked
        | .fuelOut => .fuelOut
      else if x.kind = .minus then
        match parse_fact src tokens fuel (advanceTok tokens pos) with
        | .ok (.ok f, pos2) => .ok (.ok (.fact (.unaryOperator .minus f)), pos2)
        | .ok (.error e, pos2) => .ok (.error e, pos2)
        | .panicked => .panicked
        | .fuelOut => .fuelOut
      else
        match parse_fact src tokens fuel (advanceTok tokens pos) with
        | .ok (.ok f, pos2) => .ok (.ok (.fact (.unaryOperator .plus f)), pos2)
        | .ok (.error e, pos2) => .ok (.error e, pos2)
        | .panicked => .panicked
        | .fuelOut => .fuelOut
    | none =>
      if pos < 2 then .panicked
      else
        match tokens.get? (pos - 2) with
        | none => .panicked
        | some sec_last =>
          let ti := token_info src sec_last
          .ok (.error ⟨"Expected either `+`, `-`, `(`, an `Identifier`, or a `Literal` after `"
                ++ ti.literal ++ "`", sec_last.line, ti.column + 1⟩, pos)
  termination_by structural fuel _ => fuel

/-- The inner loop `parse_term_inner` of `Parser::parse_term`: left-fold of
`* Fact` while the current token is `Star`. -/
def parse_term_inner (src : List Nat) (tokens : List Token) :
    Nat → Node → Nat → PRes (Except DiagnosticError Node × Nat)
  | 0, _, _ => .fuelOut
  | fuel + 1, lhs, pos =>
    match (current_token tokens pos).map Token.kind with
    | some .star =>
      match parse_fact src tokens fuel (advanceTok tokens pos) with
      | .ok (.ok rhs, pos2) =>
        parse_term_inner src tokens fuel (.term lhs .multiply rhs) pos2
      | .ok (.error e, pos2) => .ok (.error e, pos2)
      | .panicked => .panicked
      | .fuelOut => .fuelOut
    | _ => .ok (.ok lhs, pos)
  termination_by structural fuel _ _ => fuel

/-- `Parser::parse_term`. -/
def parse_term (src : List Nat) (tokens : List Token) :
    Nat → Nat → PRes (Except DiagnosticError Node × Nat)
  | 0, _ => .fuelOut
  | fuel + 1, pos =>
    match parse_fact src tokens fuel pos with
    | .ok (.ok lhs, pos1) => parse_term_inner src tokens fuel lhs pos1
    | .ok (.error e, pos1) => .ok (.error e, pos1)
    | .panicked => .panicked
    | .fuelOut => .fuelOut
  termination_by structural fuel _ => fuel

/-- The inner loop `parse_expr_inner` of `Parser::parse_expr`: left-fold of
`('+' | '-') Term` while the current token is `Plus` or `Minus`. -/
def parse_expr_inner (src : List Nat) (tokens : List Token) :
    Nat → Node → Nat → PRes (Except DiagnosticError Node × Nat)
  | 0, _, _ => .fuelOut
  | fuel + 1, lhs, pos =>
    let kind := (current_token tokens pos).map Token.kind
    if kind = some .plus ∨ kind = some .minus then
      match parse_term src tokens fuel (advanceTok tokens pos) with
      | .ok (.ok rhs, pos2) =>
        parse_expr_inner src tokens fuel
          (.term lhs (if kind = some .plus then .plus else .minus) rhs) pos2
      | .ok (.error e, pos2) => .ok (.error e, pos2)
      | .panicked => .panicked
      | .fuelOut => .fuelOut
    else
      .ok (.ok lhs, pos)
  termination_by structural fuel _ _ => fuel

/-- `Parser::parse_expr`: a `Term`, folded with any following
`('+' | '-') Term` by `parse_expr_inner`, wrapped once in `Node::Expression`. -/
def parse_expr (src : List Nat) (tokens : List Token) :
    Nat → Nat → PRes (Except DiagnosticError Node × Nat)
  | 0, _ => .fuelOut
  | fuel + 1, pos =>
    match parse_term src tokens fuel pos with
    | .ok (.ok lhs, pos1) =>
      (match parse_expr_inner src tokens fuel lhs pos1 with
       | .ok (.ok e, pos2) => .ok (.ok (.expression e), pos2)
       | .ok (.error e, pos2) => .ok (.error e, pos2)
       | .panicked => .panicked
       | .fuelOut => .fuelOut)
    | .ok (.error e, pos1) => .ok (.error e, pos1)
    | .panicked => .panicked
    | .fuelOut => .fuelOut
  termination_by structural fuel _ => fuel

/-- The tail of `Parser::parse_assignment` after the expression step (the
code from the `previous_token().unwrap()` through the recursive call),
factored into its own function so the assignment loop's invariants can be
proved stage by stage.  `idNode`/`exprNode` are the parsed identifier and
expression (if each succeeded), `errsPre` the diagnostics pushed so far in
this statement, and `pos4` the cursor after expression recovery. -/
def parse_assignment_tail (src : List Nat) (tokens : List Token) :
    Nat → Option Node → Option Node → List DiagnosticError → Nat →
    PRes (List Node × List DiagnosticError × Nat)
  | 0, _, _, _, _ => .fuelOut
  | fuel + 1, idNode, exprNode, errsPre, pos4 =>
    match previous_token_unwrap tokens pos4 with
    | .panicked => .panicked
    | .fuelOut => .fuelOut
    | .ok expr_token =>
      let expr_info := token_info src expr_token
      -- the semicolon
      match current_token tokens pos4 with
      | some tok =>
        match (if tok.kind = .semicolon then (advanceTok tokens pos4, ([] : List DiagnosticError))
               else
                 (pos4,
                   [⟨"Expected a `Semicolon` after `" ++ expr_info.literal ++ "`, but found `"
                       ++ bytesToString (slice src tok.tokStart tok.tokStop) ++ "` ("
                       ++ kindStr tok.kind ++ ").",
                     expr_info.line,
                     expr_token.tokStop + 1 - linebreak_index src expr_token.tokStart⟩])) with
        | (pos5, errs4) =>
          let newAs : List Node :=
            match idNode, exprNode with
            | some i, some e => [.assignment i e]
            | _, _ => []
          (match parse_assignment src tokens fuel pos5 with
           | .ok (restAs, restErrs, posF) =>
             .ok (newAs ++ restAs, errsPre ++ errs4 ++ restErrs, posF)
           | .panicked => .panicked
           | .fuelOut => .fuelOut)
      | none =>
        -- missing `;` with no further tokens: abandon the remaining program
        .ok ([],
          errsPre ++
            [⟨"Expected `Semicolon` after `" ++ expr_info.literal ++ "`.",
              expr_info.line,
              expr_token.tokStop + 1 - linebreak_index src expr_token.tokStart⟩],
          pos4)
  termination_by structural fuel _ _ _ _ => fuel

/-- `Parser::parse_assignment`: parses one `Identifier '=' Expression ';'`
statement with error recovery and recurses for the following statements
(via `parse_assignment_tail`).  Returns the assignments appended from this
call on, the diagnostics in push order, and the final cursor position. -/
def parse_assignment (src : List Nat) (tokens : List Token) :
    Nat → Nat → PRes (List Node × List DiagnosticError × Nat)
  | 0, _ => .fuelOut
  | fuel + 1, pos =>
    match current_token tokens pos with
    | none => .ok ([], [], pos)
    | some ident_token =>
      if ident_token.kind = .endOfFile then .ok ([], [], pos)
      else
        let ident_info := token_info src ident_token
        -- identifier handling: advance only on a valid identifier
        let idStep : Option Node × Nat × List DiagnosticError :=
          if ident_token.kind = .identifier then
            (some (.identifier ⟨slice src ident_token.tokStart ident_token.tokStop,
                ident_token.tokStart, ident_token.tokStop, ident_token.line⟩),
              advanceTok tokens pos, [])
          else
            (none, pos,
              [⟨"Expected an `Identifier`, but found `" ++ ident_info.literal ++ "` ("
                  ++ kindStr ident_token.kind ++ ")", ident_info.line, ident_info.column⟩])
        match idStep with
        | (idNode, pos1, errs1) =>
        -- the equal sign
        let eqStep : Nat × List DiagnosticError :=
          match current_token tokens pos1 with
          | some tok =>
            if tok.kind = .equal then (advanceTok tokens pos1, [])
            else if tok.kind ≠ .endOfFile then
              let next_info := token_info src tok
              (pos1,
                [⟨"Expected an `Equal` token, but found `" ++ next_info.literal ++ "` ("
                    ++ kindStr tok.kind ++ ").",
                  ident_info.line,
                  if tok.line = ident_token.line then
                    tok.tokStart + 1 - linebreak_index src ident_token.tokStart
                  else
                    ident_token.tokStop + 1 - linebreak_index src ident_token.tokStart⟩])
            else
              (pos1,
                [⟨"Expected an `Equal` token.", ident_info.line,
                  ident_token.tokStop + 1 - linebreak_index src ident_token.tokStart⟩])
          | none =>
            (pos1,
              [⟨"Expected an `Equal` token.", ident_info.line,
                ident_token.tokStop + 1 - linebreak_index src ident_token.tokStart⟩])
        match eqStep with
        | (pos2, errs2) =>
        -- the expression, with the one-step cursor rewind on failure
        match parse_expr src tokens fuel pos2 with
        | .panicked => .panicked
        | .fuelOut => .fuelOut
        | .ok (.ok node, pos3) =>
          parse_assignment_tail src tokens fuel idNode (some node) (errs1 ++ errs2) pos3
        | .ok (.error e, pos3) =>
          let cur := (current_token tokens pos3).map Token.kind
          if cur = some .endOfFile ∨ cur = some .semicolon then
            parse_assignment_tail src tokens fuel idNode none (errs1 ++ errs2 ++ [e]) pos3
          else if pos3 = 0 then
            .panicked
          else
            parse_assignment_tail src tokens fuel idNode none (errs1 ++ errs2 ++ [e]) (pos3 - 1)
  termination_by structural fuel _ => fuel

end

/-- `Parser::parse_program`: run the assignment loop from position 0 and check
the `assert_eq!` that the final token is `EndOfFile` (its failure is a
panic). -/
def parse_program (src : List Nat) (tokens : List Token) (fuel : Nat) :
    PRes (Node × List DiagnosticError) :=
  match parse_assignment src tokens fuel 0 with
  | .ok (assignments, errors, pos) =>
    if (current_token tokens pos).map Token.kind = some .endOfFile then
      .ok (.program assignments, errors)
    else
      .panicked
  | .panicked => .panicked
  | .fuelOut => .fuelOut

/-- `Parser::parse`: `Ok(program)` when no diagnostics were produced,
`Err(errors)` otherwise (the program node is discarded on the error path). -/
def parse (src : List Nat) (tokens : List Token) (fuel : Nat) :
    PRes (Except (List DiagnosticError) Node) :=
  match parse_program src tokens fuel with
  | .ok (program, errors) =>
    if errors = [] then .ok (.ok program) else .ok (.error errors)
  | .panicked => .panicked
  | .fuelOut => .fuelOut

end Toy

namespace Toy

/-! ## Interpreter (`src/interpreter.rs`) -/

/-- The variable store `HashMap<&'a str, isize>`, modelled as an association
list keyed by the variable's byte string (string content equality). -/
abbrev VarMap := List (List Nat × Int)

/-- `HashMap::get`. -/
def lookupVar (m : VarMap) (k : List Nat) : Option Int :=
  match m with
  | [] => none
  | (k', v) :: rest => if k' = k then some v else lookupVar rest k

/-- `HashMap::insert`: overwrite an existing binding, else add one. -/
def insertVar (m : VarMap) (k : List Nat) (v : Int) : VarMap :=
  match m with
  | [] => [(k, v)]
  | (k', v') :: rest => if k' = k then (k, v) :: rest else (k', v') :: insertVar rest k v

/-- `evaluate_node` from `src/interpreter.rs`: post-order walk returning the
node's value, the updated variable store and the diagnostics pushed by the
walk, in push order.  The `unreachable!` on a unary `Multiply` is a panic,
modelled as `none`.  `isize` arithmetic wraps (`wrap64`), the release-build
semantics.  The assignment key is the source slice at the identifier's range
(exactly `src.get(ident_node.range).unwrap()`); identifier lookup uses the
node's copied literal. -/
def evaluate_node (src : List Nat) : Node → VarMap → Option (Int × VarMap × List DiagnosticError)
  | .program nodes, m => goProgram nodes m
  | .assignment var_node expr, m =>
    (match var_node with
     | .identifier ident_node =>
       (match evaluate_node src expr m with
        | none => none
        | some (rhs, m1, errs) =>
          some (0, insertVar m1 (slice src ident_node.rangeStart ident_node.rangeStop) rhs, errs))
     | _ => some (0, m, []))
  | .expression expr, m => evaluate_node src expr m
  | .term lhs op rhs, m =>
    (match evaluate_node src lhs m with
     | none => none
     | some (a, m1, e1) =>
       (match evaluate_node src rhs m1 with
        | none => none
        | some (b, m2, e2) =>
          some (wrap64 (match op with
            | .plus => a + b
            | .minus => a - b
            | .multiply => a * b), m2, e1 ++ e2)))
  | .fact f, m => evaluate_node src f m
  | .unaryOperator op rhs, m =>
    (match op with
     | .minus =>
       (match evaluate_node src rhs m with
        | none => none
        | some (v, m1, e1) => some (wrap64 (-v), m1, e1))
     | .plus => evaluate_node src rhs m
     | .multiply => none)
  | .identifier var_node, m =>
    (match lookupVar m var_node.literal with
     | some num => some (num, m, [])
     | none =>
       some (0, m,
         [⟨"The identifier `" ++ bytesToString var_node.literal
             ++ "`, has not yet been initialized.",
           var_node.line,
           var_node.rangeStart + 1 - linebreak_index src var_node.rangeStart⟩]))
  | .literal lit, m => some (lit.value, m, [])
where
  /-- The `Node::Program` loop: evaluate children in order, discarding their
  values. -/
  goProgram : List Node → VarMap → Option (Int × VarMap × List DiagnosticError)
  | [], m => some (0, m, [])
  | n :: ns, m =>
    (match evaluate_node src n m with
     | none => none
     | some (_, m1, e1) =>
       (match goProgram ns m1 with
        | none => none
        | some (_, m2, e2) => some (0, m2, e1 ++ e2)))

/-- `Interpreter::evaluate` on a fresh interpreter: the final variable store
and the diagnostics (Rust returns `Ok(())` exactly when the diagnostic list
is empty and keeps the store in the interpreter). -/
def evaluate (src : List Nat) (root : Node) : Option (VarMap × List DiagnosticError) :=
  match evaluate_node src root [] with
  | none => none
  | some (_, m, errs) => some (m, errs)

/-- `Parser::new(src).parse_program(..)`: lex (whitespace dropped) and run the
parser from the token sequence, as `main` does. -/
def parse_src (s : String) (fuel : Nat) : PRes (Node × List DiagnosticError) :=
  parse_program (str2bytes s) (lex (str2bytes s)) fuel

end Toy

namespace Toy

/-! ### Decidable equality for `Node` -/

mutual

/-- Structural equality test for `Node` (used only to obtain decidable
equality, so concrete parser outputs can be stated and checked by `decide`). -/
def Node.beq : Node → Node → Bool
  | .program as, .program bs => Node.beqList as bs
  | .assignment a b, .assignment c d => Node.beq a c && Node.beq b d
  | .expression a, .expression b => Node.beq a b
  | .term a o b, .term c o2 d => decide (o = o2) && Node.beq a c && Node.beq b d
  | .fact a, .fact b => Node.beq a b
  | .unaryOperator o a, .unaryOperator o2 b => decide (o = o2) && Node.beq a b
  | .identifier a, .identifier b => decide (a = b)
  | .literal a, .literal b => decide (a = b)
  | _, _ => false

/-- `Node.beq` on lists. -/
def Node.beqList : List Node → List Node → Bool
  | [], [] => true
  | a :: as, b :: bs => Node.beq a b && Node.beqList as bs
  | _, _ => false

end

theorem Node.beq_sound : ∀ (a b : Node), Node.beq a b = true → a = b := by
  intro a
  induction a using Node.rec
    (motive_2 := fun as => ∀ bs : List Node, Node.beqList as bs = true → as = bs) with
  | nil =>
    rename_i bs h
    cases bs <;> simp_all [Node.beqList]
  | cons hd tl ih1 ih2 =>
    rename_i bs h
    cases bs <;> simp_all [Node.beq, Node.beqList]
    exact ⟨ih1 _ h.1, ih2 _ h.2⟩
  | program as ih =>
    intro b h
    cases b <;> simp_all [Node.beq]
    exact ih _ h
  | assignment x y ih1 ih2 =>
    intro b h
    cases b <;> simp_all [Node.beq]
    exact ⟨ih1 _ h.1, ih2 _ h.2⟩
  | expression x ih =>
    intro b h
    cases b <;> simp_all [Node.beq]
    exact ih _ h
  | term x o y ih1 ih2 =>
    intro b h
    cases b <;> simp_all [Node.beq]
    exact ⟨ih1 _ h.1.2, ih2 _ h.2⟩
  | fact x ih =>
    intro b h
    cases b <;> simp_all [Node.beq]
    exact ih _ h
  | unaryOperator o x ih =>
    intro b h
    cases b <;> simp_all [Node.beq]
    exact ih _ h.2
  | identifier a =>
    intro b h
    cases b <;> simp_all [Node.beq]
  | literal a =>
    intro b h
    cases b <;> simp_all [Node.beq]

theorem Node.beq_refl : ∀ a : Node, Node.beq a a = true := by
  intro a
  induction a using Node.rec (motive_2 := fun as => Node.beqList as as = true)
  all_goals simp_all [Node.beq, Node.beqList]

instance : DecidableEq Node := fun a b =>
  if h : Node.beq a b = true then isTrue (Node.beq_sound a b h)
  else isFalse fun he => h (he ▸ Node.beq_refl a)

/-! ## Concrete claim theorems: error handling and safety -/

/-- C4 (failing-input evidence): parsing the input `**` panics instead of
returning normally with diagnostics.  `parse_fact` reports the first `*` and
advances; the expression-recovery branch sees the second `*` (neither
`EndOfFile` nor `;`) and rewinds the cursor back to position 0; then
`previous_token()` computes `0 - 1` on a `usize` and the `.unwrap()` panics. -/
theorem parse_panics_on_star_star : parse_src "**" 100 = .panicked := by
  have hlex : lex (str2bytes "**") =
      [⟨.star, 0, 1, 1⟩, ⟨.star, 1, 2, 1⟩, ⟨.endOfFile, 2, 2, 1⟩] := rfl
  unfold parse_src
  rw [hlex]
  rfl

/-- C5 (counterexample): on `x = 007;` the `Literal` branch of `parse_fact`
consumes the literal token (cursor 2 → 3) but returns an `Err` — it does not
yield a dummy value of zero — and consequently the surrounding assignment is
dropped: the parsed program is empty rather than containing a continued AST
node. -/
theorem no_dummy_zero_for_bad_literal :
    parse_fact (str2bytes "x = 007;") (lex (str2bytes "x = 007;")) 100 2 =
      .ok (.error ⟨"The integer, `007`, is invalid. literals must be either 0 or non-zero digits.",
        1, 5⟩, 3)
    ∧ parse_src "x = 007;" 100 =
      .ok (.program [],
        [⟨"The integer, `007`, is invalid. literals must be either 0 or non-zero digits.", 1, 5⟩]) := by
  have hlex : lex (str2bytes "x = 007;") =
      [⟨.identifier, 0, 1, 1⟩, ⟨.equal, 2, 3, 1⟩, ⟨.literal, 4, 7, 1⟩,
       ⟨.semicolon, 7, 8, 1⟩, ⟨.endOfFile, 8, 8, 1⟩] := rfl
  refine ⟨?_, ?_⟩
  · rw [hlex]
    rfl
  · unfold parse_src
    rw [hlex]
    rfl

/-- C5 (amended): a leading-zero multi-digit literal and an out-of-range
literal each produce their own distinct diagnostic; recovery consumes the
literal token, but `parse_fact` propagates the error (no dummy zero value),
so the surrounding assignment is dropped; `x = 007;` produces exactly one
diagnostic citing the leading-zero rule and no panic, and
`y = 99999999999999999999;` produces exactly one overflow diagnostic and no
panic. -/
theorem literal_diagnostics_distinct :
    parse_src "x = 007;" 100 =
      .ok (.program [],
        [⟨"The integer, `007`, is invalid. literals must be either 0 or non-zero digits.", 1, 5⟩])
    ∧ parse_src "y = 99999999999999999999;" 100 =
      .ok (.program [],
        [⟨"The integer,`99999999999999999999`, is invalid. integers must be in the range [-9223372036854775808, 9223372036854775807].",
          1, 5⟩])
    ∧ ("The integer, `007`, is invalid. literals must be either 0 or non-zero digits." ≠
        "The integer,`99999999999999999999`, is invalid. integers must be in the range [-9223372036854775808, 9223372036854775807].") := by
  have hlex1 : lex (str2bytes "x = 007;") =
      [⟨.identifier, 0, 1, 1⟩, ⟨.equal, 2, 3, 1⟩, ⟨.literal, 4, 7, 1⟩,
       ⟨.semicolon, 7, 8, 1⟩, ⟨.endOfFile, 8, 8, 1⟩] := rfl
  have hlex2 : lex (str2bytes "y = 99999999999999999999;") =
      [⟨.identifier, 0, 1, 1⟩, ⟨.equal, 2, 3, 1⟩, ⟨.literal, 4, 24, 1⟩,
       ⟨.semicolon, 24, 25, 1⟩, ⟨.endOfFile, 25, 25, 1⟩] := rfl
  refine ⟨?_, ?_, by decide⟩
  · unfold parse_src
    rw [hlex1]
    rfl
  · unfold parse_src
    rw [hlex2]
    rfl

end Toy

namespace Toy

/-- C3: parsing the malformed input `a = ; b = 5;` appends to the program
only the fully parsed assignment `b = 5` — the partial `a =` assignment
(whose expression failed) is dropped — while its diagnostic (for the missing
expression after `a =`) is retained as the only diagnostic; evaluating the
recovered program still binds `b` to `5`.  In general, every node the
assignment loop appends is an `Assignment` whose left side is an
`Identifier` node. -/
theorem assignment_recovery_keeps_later_statement :
    parse_src "a = ; b = 5;" 100 =
      .ok (.program [.assignment (.identifier ⟨str2bytes "b", 6, 7, 1⟩)
            (.expression (.literal ⟨5⟩))],
        [⟨"Expected either `+`, `-`, `(`, an `Identifier`, or a `Literal`, but found `;` (Semicolon)",
          1, 5⟩])
    ∧ evaluate (str2bytes "a = ; b = 5;")
        (.program [.assignment (.identifier ⟨str2bytes "b", 6, 7, 1⟩)
          (.expression (.literal ⟨5⟩))]) =
      some ([(str2bytes "b", 5)], []) := by
  have hlex : lex (str2bytes "a = ; b = 5;") =
      [⟨.identifier, 0, 1, 1⟩, ⟨.equal, 2, 3, 1⟩, ⟨.semicolon, 4, 5, 1⟩,
       ⟨.identifier, 6, 7, 1⟩, ⟨.equal, 8, 9, 1⟩, ⟨.literal, 10, 11, 1⟩,
       ⟨.semicolon, 11, 12, 1⟩, ⟨.endOfFile, 12, 12, 1⟩] := rfl
  refine ⟨?_, rfl⟩
  unfold parse_src
  rw [hlex]
  rfl

/-- C6: evaluating `z = undefinedVar + 1;` (which parses cleanly) produces
exactly one uninitialized-identifier diagnostic, naming `undefinedVar` and
its position, and still binds `z` to `1` — the unbound read was substituted
by zero.  In general, an `Identifier` node evaluates to its stored value when
bound, and to `0` plus one diagnostic naming the variable and its position
when unbound. -/
theorem uninitialized_identifier_reads_zero :
    parse_src "z = undefinedVar + 1;" 100 =
      .ok (.program [.assignment (.identifier ⟨str2bytes "z", 0, 1, 1⟩)
            (.expression (.term (.identifier ⟨str2bytes "undefinedVar", 4, 16, 1⟩)
              .plus (.literal ⟨1⟩)))], [])
    ∧ evaluate (str2bytes "z = undefinedVar + 1;")
        (.program [.assignment (.identifier ⟨str2bytes "z", 0, 1, 1⟩)
          (.expression (.term (.identifier ⟨str2bytes "undefinedVar", 4, 16, 1⟩)
            .plus (.literal ⟨1⟩)))]) =
      some ([(str2bytes "z", 1)],
        [⟨"The identifier `undefinedVar`, has not yet been initialized.", 1, 5⟩])
    ∧ (∀ (src : List Nat) (idn : IdentifierNode) (m : VarMap) (v : Int),
        lookupVar m idn.literal = some v →
        evaluate_node src (.identifier idn) m = some (v, m, []))
    ∧ (∀ (src : List Nat) (idn : IdentifierNode) (m : VarMap),
        lookupVar m idn.literal = none →
        evaluate_node src (.identifier idn) m = some (0, m,
          [⟨"The identifier `" ++ bytesToString idn.literal
              ++ "`, has not yet been initialized.",
            idn.line, idn.rangeStart + 1 - linebreak_index src idn.rangeStart⟩])) := by
  have hlex : lex (str2bytes "z = undefinedVar + 1;") =
      [⟨.identifier, 0, 1, 1⟩, ⟨.equal, 2, 3, 1⟩, ⟨.identifier, 4, 16, 1⟩,
       ⟨.plus, 17, 18, 1⟩, ⟨.literal, 19, 20, 1⟩, ⟨.semicolon, 20, 21, 1⟩,
       ⟨.endOfFile, 21, 21, 1⟩] := rfl
  refine ⟨?_, rfl, ?_, ?_⟩
  · unfold parse_src
    rw [hlex]
    rfl
  · intro src idn m v h
    simp [evaluate_node, h]
  · intro src idn m h
    simp [evaluate_node, h]

/-- Witness for `uninitialized_identifier_reads_zero`: its two conditional
conjuncts applied at concrete stores. -/
theorem uninitialized_identifier_reads_zero_witness :
    evaluate_node [] (.identifier ⟨[122], 0, 1, 1⟩) [([122], 7)] = some (7, [([122], 7)], [])
    ∧ evaluate_node [] (.identifier ⟨[122], 0, 1, 1⟩) [] = some (0, [],
        [⟨"The identifier `" ++ bytesToString [122] ++ "`, has not yet been initialized.",
          1, 0 + 1 - linebreak_index [] 0⟩]) := by
  exact ⟨uninitialized_identifier_reads_zero.2.2.1 [] ⟨[122], 0, 1, 1⟩ [([122], 7)] 7 (by decide),
    uninitialized_identifier_reads_zero.2.2.2 [] ⟨[122], 0, 1, 1⟩ [] (by decide)⟩

end Toy

namespace Toy

/-! ## C8: the assignment loop does not terminate on all inputs -/

/-- The tokens `Lexer::lex` produces for the input `x=1;**`. -/
def loopToks : List Token :=
  [⟨.identifier, 0, 1, 1⟩, ⟨.equal, 1, 2, 1⟩, ⟨.literal, 2, 3, 1⟩,
   ⟨.semicolon, 3, 4, 1⟩, ⟨.star, 4, 5, 1⟩, ⟨.star, 5, 6, 1⟩, ⟨.endOfFile, 6, 6, 1⟩]

/-- The source bytes of `x=1;**`. -/
def loopSrc : List Nat := str2bytes "x=1;**"

/-- One pass of the assignment loop over the dangling `* *` suffix of
`x=1;**`: it pushes four diagnostics, moves the cursor from 4 to 5 and back
to 4 (expression-recovery rewind), fails to find the `;` without advancing,
and re-enters the loop at the identical position 4 (two fuel levels down:
one for `parse_assignment`, one for `parse_assignment_tail`). -/
theorem loop_step_eq (j : Nat) :
    parse_assignment loopSrc loopToks (j + 5) 4 =
      (match parse_assignment loopSrc loopToks (j + 3) 4 with
       | .ok (a, e, p) =>
         .ok (a,
           [⟨"Expected an `Identifier`, but found `*` (Star)", 1, 5⟩,
            ⟨"Expected an `Equal` token, but found `*` (Star).", 1, 5⟩,
            ⟨"Expected either `+`, `-`, `(`, an `Identifier`, or a `Literal`, but found `*` (Star)", 1, 5⟩,
            ⟨"Expected a `Semicolon` after `;`, but found `*` (Star).", 1, 5⟩] ++ e, p)
       | .panicked => .panicked
       | .fuelOut => .fuelOut) := rfl

theorem loop_all : ∀ n : Nat, parse_assignment loopSrc loopToks n 4 = .fuelOut := by
  intro n
  induction n using Nat.strong_induction_on with
  | _ n ih =>
    match n with
    | 0 => rfl
    | 1 => rfl
    | 2 => rfl
    | 3 => rfl
    | 4 => rfl
    | (j + 5) =>
      rw [loop_step_eq j, ih (j + 3) (by omega)]

/-- The first statement `x=1;` of the C8 input parses cleanly and hands the
cursor (at position 4) to the recursive call. -/
theorem loop_entry_eq (j : Nat) :
    parse_assignment loopSrc loopToks (j + 6) 0 =
      (match parse_assignment loopSrc loopToks (j + 4) 4 with
       | .ok (a, e, p) =>
         .ok ([.assignment (.identifier ⟨str2bytes "x", 0, 1, 1⟩)
             (.expression (.literal ⟨1⟩))] ++ a, e, p)
       | .panicked => .panicked
       | .fuelOut => .fuelOut) := rfl

/-- C8 (refutation): parsing does *not* terminate on every lexed token
sequence.  On the input `x=1;**`, after the first statement the recovery
branch for the failed expression rewinds the cursor by one, and the
missing-semicolon branch does not advance it, so the recursive assignment
loop re-enters with the identical cursor position: for *every* fuel bound the
embedded parser runs out of fuel (the Rust original recurses forever). -/
theorem parse_loops_forever_on_rewind :
    lex (str2bytes "x=1;**") = loopToks
    ∧ ∀ fuel : Nat, parse_src "x=1;**" fuel = .fuelOut := by
  refine ⟨rfl, ?_⟩
  intro fuel
  have hasg : parse_assignment loopSrc loopToks fuel 0 = .fuelOut := by
    match fuel with
    | 0 => rfl
    | 1 => rfl
    | 2 => rfl
    | 3 => rfl
    | 4 => rfl
    | 5 => rfl
    | (j + 6) => rw [loop_entry_eq j, loop_all (j + 4)]
  unfold parse_src parse_program
  rw [show lex (str2bytes "x=1;**") = loopToks from rfl]
  rw [show str2bytes "x=1;**" = loopSrc from rfl, hasg]

end Toy

namespace Toy

/-! ## C10: no unary `Multiply` is ever built, and the evaluator's
`unreachable!` branch is dead for parser output -/

/-- `true` iff the tree contains no `UnaryOperator` node whose operator is
`Multiply`. -/
def noUnaryMul : Node → Bool
  | .program ns => go ns
  | .assignment a b => noUnaryMul a && noUnaryMul b
  | .expression e => noUnaryMul e
  | .term a _ b => noUnaryMul a && noUnaryMul b
  | .fact f => noUnaryMul f
  | .unaryOperator op f => decide (op ≠ .multiply) && noUnaryMul f
  | .identifier _ => true
  | .literal _ => true
where
  /-- `noUnaryMul` over a list of children. -/
  go : List Node → Bool
  | [] => true
  | n :: ns => noUnaryMul n && go ns

/-- The evaluator never panics on a tree free of unary `Multiply`: the
`unreachable!` branch is the only `none` source in `evaluate_node`. -/
theorem evaluate_node_total (src : List Nat) :
    ∀ n : Node, noUnaryMul n = true → ∀ m : VarMap, evaluate_node src n m ≠ none := by
  intro n
  induction n using Node.rec
    (motive_2 := fun ns => noUnaryMul.go ns = true →
      ∀ m : VarMap, evaluate_node.goProgram src ns m ≠ none) with
  | program ns ih =>
    intro h m
    simp only [evaluate_node]
    exact ih (by simpa [noUnaryMul] using h) m
  | assignment a b iha ihb =>
    intro h m
    have hb : noUnaryMul b = true := by
      simp [noUnaryMul, Bool.and_eq_true] at h
      exact h.2
    simp only [evaluate_node]
    cases a <;> try simp
    rename_i idn
    cases hev : evaluate_node src b m with
    | none => exact absurd hev (ihb hb m)
    | some v =>
      obtain ⟨rhs, m1, errs⟩ := v
      simp
  | expression e ih =>
    intro h m
    simp only [evaluate_node]
    exact ih (by simpa [noUnaryMul] using h) m
  | term a o b iha ihb =>
    intro h m
    simp [noUnaryMul, Bool.and_eq_true] at h
    simp only [evaluate_node]
    cases hev : evaluate_node src a m with
    | none => exact absurd hev (iha h.1 m)
    | some v =>
      obtain ⟨x, m1, e1⟩ := v
      cases hev2 : evaluate_node src b m1 with
      | none => exact absurd hev2 (ihb h.2 m1)
      | some w =>
        obtain ⟨y, m2, e2⟩ := w
        simp [hev2]
  | fact f ih =>
    intro h m
    simp only [evaluate_node]
    exact ih (by simpa [noUnaryMul] using h) m
  | unaryOperator o f ih =>
    intro h m
    simp [noUnaryMul, Bool.and_eq_true] at h
    simp only [evaluate_node]
    cases o with
    | multiply => simp at h
    | minus =>
      cases hev : evaluate_node src f m with
      | none => exact absurd hev (ih h.2 m)
      | some v =>
        obtain ⟨x, m1, e1⟩ := v
        simp
    | plus => exact ih h.2 m
  | identifier idn =>
    intro _ m
    simp only [evaluate_node]
    cases lookupVar m idn.literal <;> simp
  | literal l =>
    intro _ m
    simp [evaluate_node]
  | nil =>
    simp_all [evaluate_node.goProgram]
  | cons hd tl ih1 ih2 =>
    rename_i h m
    simp [noUnaryMul.go, Bool.and_eq_true] at h
    simp only [evaluate_node.goProgram]
    cases hev : evaluate_node src hd m with
    | none => exact absurd hev (ih1 h.1 m)
    | some v =>
      obtain ⟨x, m1, e1⟩ := v
      cases hev2 : evaluate_node.goProgram src tl m1 with
      | none => exact absurd hev2 (ih2 h.2 m1)
      | some w =>
        obtain ⟨y, m2, e2⟩ := w
        simp [hev2]

end Toy

namespace Toy

/-- `noUnaryMul.go` distributes over append. -/
theorem noUnaryMul_go_append (xs ys : List Node) :
    noUnaryMul.go (xs ++ ys) = (noUnaryMul.go xs && noUnaryMul.go ys) := by
  induction xs with
  | nil => simp [noUnaryMul.go]
  | cons x xs ih => simp [noUnaryMul.go, ih, Bool.and_assoc]

/-- Across every parser production, any successfully returned node — and
every assignment the loop collects — is free of unary `Multiply`: the
parser only constructs `UnaryOperator` with `Minus` or `Plus`. -/
theorem parse_noUnaryMul :
    ∀ fuel : Nat,
      (∀ (src : List Nat) (toks : List Token) (pos : Nat) (r : Node) (p : Nat),
        parse_fact src toks fuel pos = .ok (.ok r, p) → noUnaryMul r = true)
      ∧ (∀ (src : List Nat) (toks : List Token) (lhs : Node) (pos : Nat) (r : Node) (p : Nat),
          noUnaryMul lhs = true →
          parse_term_inner src toks fuel lhs pos = .ok (.ok r, p) → noUnaryMul r = true)
      ∧ (∀ (src : List Nat) (toks : List Token) (pos : Nat) (r : Node) (p : Nat),
          parse_term src toks fuel pos = .ok (.ok r, p) → noUnaryMul r = true)
      ∧ (∀ (src : List Nat) (toks : List Token) (lhs : Node) (pos : Nat) (r : Node) (p : Nat),
          noUnaryMul lhs = true →
          parse_expr_inner src toks fuel lhs pos = .ok (.ok r, p) → noUnaryMul r = true)
      ∧ (∀ (src : List Nat) (toks : List Token) (pos : Nat) (r : Node) (p : Nat),
          parse_expr src toks fuel pos = .ok (.ok r, p) → noUnaryMul r = true)
      ∧ (∀ (src : List Nat) (toks : List Token) (idN exprN : Option Node)
            (errsPre : List DiagnosticError) (pos4 : Nat) (as : List Node)
            (es : List DiagnosticError) (pf : Nat),
          (∀ i : Node, idN = some i → noUnaryMul i = true) →
          (∀ e : Node, exprN = some e → noUnaryMul e = true) →
          parse_assignment_tail src toks fuel idN exprN errsPre pos4 = .ok (as, es, pf) →
          noUnaryMul.go as = true)
      ∧ (∀ (src : List Nat) (toks : List Token) (pos : Nat) (as : List Node)
            (es : List DiagnosticError) (pf : Nat),
          parse_assignment src toks fuel pos = .ok (as, es, pf) → noUnaryMul.go as = true) := by
  intro fuel
  induction fuel with
  | zero =>
    refine ⟨?_, ?_, ?_, ?_, ?_, ?_, ?_⟩ <;> intros <;> rename_i h <;>
      simp only [parse_fact, parse_term, parse_term_inner, parse_expr, parse_expr_inner,
        parse_assignment_tail, parse_assignment] at h <;>
      exact PRes.noConfusion h
  | succ f ih =>
    obtain ⟨ihF, ihTI, ihT, ihEI, ihE, ihTail, ihA⟩ := ih
    refine ⟨?_, ?_, ?_, ?_, ?_, ?_, ?_⟩
    · -- parse_fact
      intro src toks pos r p h
      simp only [parse_fact] at h
      repeat' split at h
      all_goals (try simp at h)
      all_goals (obtain ⟨h1, h2⟩ := h; subst h1)
      all_goals simp [noUnaryMul]
      all_goals
        first
          | exact ihF src toks _ _ _ (by assumption)
          | exact ihE src toks _ _ _ (by assumption)
    · -- parse_term_inner
      intro src toks lhs pos r p hl h
      simp only [parse_term_inner] at h
      repeat' split at h
      all_goals (try simp at h)
      all_goals
        first
          | (obtain ⟨h1, h2⟩ := h; subst h1; exact hl)
          | exact ihTI src toks _ _ _ _
              (by
                simp only [noUnaryMul, hl, Bool.true_and]
                exact ihF src toks _ _ _ (by assumption)) h
    · -- parse_term
      intro src toks pos r p h
      simp only [parse_term] at h
      repeat' split at h
      all_goals (try simp at h)
      all_goals exact ihTI src toks _ _ _ _ (ihF src toks _ _ _ (by assumption)) h
    · -- parse_expr_inner
      intro src toks lhs pos r p hl h
      simp only [parse_expr_inner] at h
      repeat' split at h
      all_goals (try simp at h)
      all_goals
        first
          | (obtain ⟨h1, h2⟩ := h; subst h1; exact hl)
          | exact ihEI src toks _ _ _ _
              (by
                simp only [noUnaryMul, hl, Bool.true_and]
                exact ihT src toks _ _ _ (by assumption)) h
    · -- parse_expr
      intro src toks pos r p h
      simp only [parse_expr] at h
      repeat' split at h
      all_goals (try simp at h)
      all_goals (obtain ⟨h1, h2⟩ := h; subst h1)
      all_goals simp [noUnaryMul]
      all_goals exact ihEI src toks _ _ _ _ (ihT src toks _ _ _ (by assumption)) (by assumption)
    · -- parse_assignment_tail
      intro src toks idN exprN errsPre pos4 as es pf hi he h
      simp only [parse_assignment_tail] at h
      repeat' split at h
      all_goals (try simp at h)
      all_goals (first | (obtain ⟨h1, h2⟩ := h; subst h1) | exact PRes.noConfusion h | skip)
      all_goals (try simp [noUnaryMul.go, noUnaryMul, noUnaryMul_go_append])
      all_goals
        first
          | exact ihA src toks _ _ _ _ (by assumption)
          | exact ⟨⟨hi _ rfl, he _ rfl⟩, ihA src toks _ _ _ _ (by assumption)⟩
    · -- parse_assignment
      intro src toks pos as es pf h
      simp only [parse_assignment] at h
      repeat' split at h
      all_goals (try simp at h)
      all_goals
        first
          | (obtain ⟨h1, h2⟩ := h; subst h1; exact rfl)
          | exact ihTail src toks _ _ _ _ _ _ _
              (fun i hi => by rw [← Option.some.inj hi]; rfl)
              (by
                intro e heqe
                rw [← Option.some.inj heqe]
                exact ihE src toks _ _ _ (by assumption)) h
          | exact ihTail src toks _ _ _ _ _ _ _
              (fun i hi => by rw [← Option.some.inj hi]; rfl)
              (fun e heqe => Option.noConfusion heqe) h
          | exact ihTail src toks _ _ _ _ _ _ _
              (fun i hi => Option.noConfusion hi)
              (by
                intro e heqe
                rw [← Option.some.inj heqe]
                exact ihE src toks _ _ _ (by assumption)) h
          | exact ihTail src toks _ _ _ _ _ _ _
              (fun i hi => Option.noConfusion hi)
              (fun e heqe => Option.noConfusion heqe) h

/-- C10: for every source and token sequence, any `Program` AST returned by
`parse_program` is free of `UnaryOperator` nodes whose operator is `Multiply`
— the parser only builds unary nodes for `Minus` and `Plus` — and
consequently the evaluator's `unreachable!` branch for a unary `Multiply`
(the only `none` source in `evaluate_node`) is never executed when
evaluating such an AST, under any variable store. -/
theorem parser_never_builds_unary_multiply
    (src : List Nat) (toks : List Token) (fuel : Nat)
    (prog : Node) (errs : List DiagnosticError)
    (h : parse_program src toks fuel = .ok (prog, errs)) :
    noUnaryMul prog = true ∧ ∀ m : VarMap, evaluate_node src prog m ≠ none := by
  simp only [parse_program] at h
  split at h
  · rename_i assignments errors pos heq
    split at h
    · simp only [PRes.ok.injEq, Prod.mk.injEq] at h
      obtain ⟨hprog, -⟩ := h
      have hgo : noUnaryMul.go assignments = true :=
        ((parse_noUnaryMul fuel).2.2.2.2.2.2) src toks 0 assignments errors pos heq
      have hall : noUnaryMul prog = true := by
        rw [← hprog]; simpa [noUnaryMul] using hgo
      exact ⟨hall, fun m => evaluate_node_total src prog hall m⟩
    · exact PRes.noConfusion h
  · exact PRes.noConfusion h
  · exact PRes.noConfusion h

/-- The AST the parser produces for `a=-1;`: one assignment whose expression
holds a unary `Minus` (not `Multiply`). -/
def c10prog : Node :=
  .program [.assignment (.identifier ⟨[97], 0, 1, 1⟩)
    (.expression (.fact (.unaryOperator .minus (.literal ⟨1⟩))))]

/-- Witness for `parser_never_builds_unary_multiply`: on the concrete input
`a=-1;` the parser succeeds with an AST containing a unary `Minus`, the
theorem applies, and its conclusion holds for that AST. -/
theorem parser_never_builds_unary_multiply_witness :
    parse_program (str2bytes "a=-1;") (lex (str2bytes "a=-1;")) 20 = .ok (c10prog, []) ∧
      (noUnaryMul c10prog = true ∧
        ∀ m : VarMap, evaluate_node (str2bytes "a=-1;") c10prog m ≠ none) := by
  have hlex : lex (str2bytes "a=-1;") =
      [⟨.identifier, 0, 1, 1⟩, ⟨.equal, 1, 2, 1⟩, ⟨.minus, 2, 3, 1⟩,
        ⟨.literal, 3, 4, 1⟩, ⟨.semicolon, 4, 5, 1⟩, ⟨.endOfFile, 5, 5, 1⟩] := rfl
  have hp : parse_program (str2bytes "a=-1;") (lex (str2bytes "a=-1;")) 20 =
      .ok (c10prog, []) := by
    rw [hlex]; rfl
  exact ⟨hp, parser_never_builds_unary_multiply _ _ _ _ _ hp⟩

end Toy

namespace Toy

/-! ## The specified grammar and semantics (spec sections 4.2 and 4.3)

The claim about valid programs is a refinement statement, so this section
follows the specification text rather than the implementation: a layered
AST that transcribes the EBNF

```
Program    := Assignment*
Assignment := Identifier '=' Expression ';'
Expression := Term (('+' | '-') Term)*
Term       := Fact ('*' Fact)*
Fact       := Literal | Identifier | '(' Expression ')' | ('+' | '-') Fact
```

with the repetitions kept as lists (left-folded by the evaluator, the
spec's "left-folding repeated matches into nested binary nodes"), an
evaluator with the specified semantics (64-bit wrapping arithmetic,
unbound identifier reads as zero, assignments overwrite), and a
derivation relation tying a spec AST to a concrete token sequence. -/

/-- The two additive operators of `Expression`. -/
inductive SOp where
  | plus
  | minus
deriving DecidableEq, Repr

mutual

/-- Spec-side `Fact`. -/
inductive SFact where
  | lit (n : Int) : SFact
  | ident (name : List Nat) : SFact
  | paren (e : SExpr) : SFact
  | neg (f : SFact) : SFact
  | pos (f : SFact) : SFact

/-- The `('*' Fact)*` repetition of `Term`. -/
inductive SFactList where
  | nil : SFactList
  | cons (f : SFact) (fs : SFactList) : SFactList

/-- Spec-side `Term`: a `Fact` and its `('*' Fact)*` repetition. -/
inductive STerm where
  | mk (first : SFact) (rest : SFactList) : STerm

/-- The `(('+' | '-') Term)*` repetition of `Expression`. -/
inductive STermList where
  | nil : STermList
  | cons (op : SOp) (t : STerm) (ts : STermList) : STermList

/-- Spec-side `Expression`: a `Term` and its `(('+' | '-') Term)*`
repetition. -/
inductive SExpr where
  | mk (first : STerm) (rest : STermList) : SExpr

end

mutual

/-- The specified value of a `Fact` in a store: literals denote themselves,
identifiers read the store (zero when unbound), parentheses group, unary
minus negates (wrapping), unary plus passes through. -/
def sevalFact : SFact → VarMap → Int
  | .lit n, _ => n
  | .ident x, m => (lookupVar m x).getD 0
  | .paren e, m => sevalExpr e m
  | .neg f, m => wrap64 (-(sevalFact f m))
  | .pos f, m => sevalFact f m

/-- Left-to-right fold of `acc * f₁ * f₂ * ⋯` with wrapping multiplication:
the spec's left associativity for `*`. -/
def sevalFactList (acc : Int) : SFactList → VarMap → Int
  | .nil, _ => acc
  | .cons f fs, m => sevalFactList (wrap64 (acc * sevalFact f m)) fs m

/-- The specified value of a `Term`. -/
def sevalTerm : STerm → VarMap → Int
  | .mk f fs, m => sevalFactList (sevalFact f m) fs m

/-- Left-to-right fold of `acc ± t₁ ± t₂ ± ⋯` with wrapping addition and
subtraction: the spec's left associativity for `+` and `-`, binding looser
than `*`. -/
def sevalTermList (acc : Int) : STermList → VarMap → Int
  | .nil, _ => acc
  | .cons op t ts, m =>
    sevalTermList
      (wrap64 (match op with
        | .plus => acc + sevalTerm t m
        | .minus => acc - sevalTerm t m)) ts m

/-- The specified value of an `Expression`. -/
def sevalExpr : SExpr → VarMap → Int
  | .mk t ts, m => sevalTermList (sevalTerm t m) ts m

end

/-- A spec-side statement `name = rhs ;`: the left-hand-side name (as the
byte string of the identifier) and the right-hand-side expression. -/
structure SStmt where
  name : List Nat
  rhs : SExpr

/-- A spec-side program: its statements in source order. -/
abbrev SProg := List SStmt

/-- One specified assignment: evaluate the right-hand side in the current
store and bind the name (overwriting any earlier binding). -/
def sevalStmt (m : VarMap) (s : SStmt) : VarMap :=
  insertVar m s.name (sevalExpr s.rhs m)

/-- The specified final store of a program started in store `m`. -/
def sevalProg : SProg → VarMap → VarMap
  | [], m => m
  | s :: rest, m => sevalProg rest (sevalStmt m s)

/-- The decimal value of a digit byte string. -/
def decimalVal (bs : List Nat) : Nat :=
  bs.foldl (fun a b => a * 10 + (b - 48)) 0

/-- A byte string that the spec accepts as an integer literal denoting `n`:
nonempty, all decimal digits, no leading zero (except the literal `0`
itself), and in range for the 64-bit signed machine integer. -/
def validLiteralBytes (bs : List Nat) (n : Int) : Prop :=
  bs ≠ [] ∧ (∀ b ∈ bs, 48 ≤ b ∧ b ≤ 57) ∧
    (bs.head? = some 48 → bs = [48]) ∧
    (decimalVal bs : Int) ≤ isizeMax ∧ n = (decimalVal bs : Int)

mutual

/-- `toks[i..j)` derives the `Fact` `f` (with the literal/identifier text
read from `src`). -/
inductive FactD (src : List Nat) (toks : List Token) : Nat → SFact → Nat → Prop where
  | lit : ∀ {i : Nat} {t : Token} {n : Int},
      toks.get? i = some t → t.kind = .literal →
      validLiteralBytes (slice src t.tokStart t.tokStop) n →
      FactD src toks i (.lit n) (i + 1)
  | ident : ∀ {i : Nat} {t : Token},
      toks.get? i = some t → t.kind = .identifier →
      FactD src toks i (.ident (slice src t.tokStart t.tokStop)) (i + 1)
  | paren : ∀ {i j : Nat} {t u : Token} {e : SExpr},
      toks.get? i = some t → t.kind = .leftParen →
      ExprD src toks (i + 1) e j →
      toks.get? j = some u → u.kind = .rightParen →
      FactD src toks i (.paren e) (j + 1)
  | neg : ∀ {i j : Nat} {t : Token} {f : SFact},
      toks.get? i = some t → t.kind = .minus →
      FactD src toks (i + 1) f j →
      FactD src toks i (.neg f) j
  | pos : ∀ {i j : Nat} {t : Token} {f : SFact},
      toks.get? i = some t → t.kind = .plus →
      FactD src toks (i + 1) f j →
      FactD src toks i (.pos f) j

/-- `toks[i..k)` derives the `('*' Fact)*` repetition `fs`; the repetition
is maximal (it stops only when the next token is not `*`). -/
inductive FactListD (src : List Nat) (toks : List Token) : Nat → SFactList → Nat → Prop where
  | nil : ∀ {i : Nat},
      (toks.get? i).map Token.kind ≠ some .star →
      FactListD src toks i .nil i
  | cons : ∀ {i j k : Nat} {t : Token} {f : SFact} {fs : SFactList},
      toks.get? i = some t → t.kind = .star →
      FactD src toks (i + 1) f j →
      FactListD src toks j fs k →
      FactListD src toks i (.cons f fs) k

/-- `toks[i..k)` derives the `Term` `t`. -/
inductive TermD (src : List Nat) (toks : List Token) : Nat → STerm → Nat → Prop where
  | mk : ∀ {i j k : Nat} {f : SFact} {fs : SFactList},
      FactD src toks i f j →
      FactListD src toks j fs k →
      TermD src toks i (.mk f fs) k

/-- `toks[i..k)` derives the `(('+' | '-') Term)*` repetition `ts`; the
repetition is maximal (it stops only when the next token is neither `+`
nor `-`). -/
inductive TermListD (src : List Nat) (toks : List Token) : Nat → STermList → Nat → Prop where
  | nil : ∀ {i : Nat},
      ¬((toks.get? i).map Token.kind = some .plus ∨
        (toks.get? i).map Token.kind = some .minus) →
      TermListD src toks i .nil i
  | consPlus : ∀ {i j k : Nat} {u : Token} {t : STerm} {ts : STermList},
      toks.get? i = some u → u.kind = .plus →
      TermD src toks (i + 1) t j →
      TermListD src toks j ts k →
      TermListD src toks i (.cons .plus t ts) k
  | consMinus : ∀ {i j k : Nat} {u : Token} {t : STerm} {ts : STermList},
      toks.get? i = some u → u.kind = .minus →
      TermD src toks (i + 1) t j →
      TermListD src toks j ts k →
      TermListD src toks i (.cons .minus t ts) k

/-- `toks[i..k)` derives the `Expression` `e`. -/
inductive ExprD (src : List Nat) (toks : List Token) : Nat → SExpr → Nat → Prop where
  | mk : ∀ {i j k : Nat} {t : STerm} {ts : STermList},
      TermD src toks i t j →
      TermListD src toks j ts k →
      ExprD src toks i (.mk t ts) k

end

/-- `toks[i..j)` derives one `Assignment := Identifier '=' Expression ';'`
statement. -/
inductive StmtD (src : List Nat) (toks : List Token) : Nat → SStmt → Nat → Prop where
  | mk : ∀ {i j : Nat} {t u v : Token} {e : SExpr},
      toks.get? i = some t → t.kind = .identifier →
      toks.get? (i + 1) = some u → u.kind = .equal →
      ExprD src toks (i + 2) e j →
      toks.get? j = some v → v.kind = .semicolon →
      StmtD src toks i ⟨slice src t.tokStart t.tokStop, e⟩ (j + 1)

/-- `toks[i..k)` derives the statement list `ps` and the token at `k` is
the end-of-file token (`Program := Assignment*`, consuming the whole
stream). -/
inductive ProgD (src : List Nat) (toks : List Token) : Nat → SProg → Nat → Prop where
  | nil : ∀ {i : Nat} {t : Token},
      toks.get? i = some t → t.kind = .endOfFile →
      ProgD src toks i [] i
  | cons : ∀ {i j k : Nat} {s : SStmt} {ss : SProg},
      StmtD src toks i s j →
      ProgD src toks j ss k →
      ProgD src toks i (s :: ss) k

end Toy

namespace Toy

/-! ### Bridging valid literals to `parse_isize` -/

/-- On an all-digit byte string the fallible accumulator of `digitsToNat?`
never fails and computes the decimal fold. -/
theorem digitsToNat_go_eq (bs : List Nat) (h : ∀ b ∈ bs, 48 ≤ b ∧ b ≤ 57) :
    ∀ a : Nat,
      bs.foldl
        (fun acc b =>
          match acc with
          | none => none
          | some v => if 48 ≤ b ∧ b ≤ 57 then some (v * 10 + (b - 48)) else none)
        (some a) =
      some (bs.foldl (fun x b => x * 10 + (b - 48)) a) := by
  induction bs with
  | nil => intro a; rfl
  | cons b rest ih =>
    intro a
    have hb := h b (List.mem_cons_self b rest)
    have hrest : ∀ x ∈ rest, 48 ≤ x ∧ x ≤ 57 := fun x hx => h x (List.mem_cons_of_mem b hx)
    simp only [List.foldl_cons, if_pos hb]
    exact ih hrest (a * 10 + (b - 48))

/-- `digitsToNat?` on an all-digit byte string returns its decimal value. -/
theorem digitsToNat_eq_decimal (bs : List Nat) (h : ∀ b ∈ bs, 48 ≤ b ∧ b ≤ 57) :
    digitsToNat? bs = some (decimalVal bs) :=
  digitsToNat_go_eq bs h 0

/-- A spec-valid literal byte string is accepted by `str::parse::<isize>`
with exactly its decimal value. -/
theorem parse_isize_of_valid (bs : List Nat) (n : Int) (h : validLiteralBytes bs n) :
    parse_isize bs = .ok n := by
  obtain ⟨hne, hdig, -, hle, hn⟩ := h
  cases bs with
  | nil => exact absurd rfl hne
  | cons b rest =>
    have hb := hdig b (List.mem_cons_self b rest)
    have hb43 : ¬b = 43 := by omega
    have hb45 : ¬b = 45 := by omega
    simp only [parse_isize, if_neg hb43, if_neg hb45]
    rw [digitsToNat_eq_decimal (b :: rest) hdig, hn]
    simp [not_lt.mpr hle]

/-- A spec-valid literal byte string never starts with a superfluous
leading zero. -/
theorem valid_no_leading_zero (bs : List Nat) (n : Int) (h : validLiteralBytes bs n) :
    ¬(bs.head? = some 48 ∧ 1 < bs.length) := by
  rintro ⟨hz, hlen⟩
  have := h.2.2.1 hz
  subst this
  simp at hlen

/-! ### Position and cursor helpers -/

/-- A defined token index is in bounds. -/
theorem get_lt_length {toks : List Token} {i : Nat} {t : Token}
    (h : toks.get? i = some t) : i < toks.length :=
  (List.get?_eq_some.mp h).1

/-- `advance()` from a defined token index moves one to the right. -/
theorem advanceTok_eq {toks : List Token} {i : Nat} {t : Token}
    (h : toks.get? i = some t) : advanceTok toks i = i + 1 := by
  simp [advanceTok, get_lt_length h]

end Toy

namespace Toy

/-! ### Parser completeness and evaluator correspondence on derivations -/

/-- Completeness/correspondence for a `Fact` derivation: the parser accepts
exactly the derived token span (for all sufficient fuel) and the returned
node evaluates in every store to the specified value, leaving the store
unchanged. -/
def PFact (src : List Nat) (toks : List Token) (i : Nat) (f : SFact) (j : Nat) : Prop :=
  i < j ∧ ∃ (node : Node) (N : Nat),
    (∀ fuel : Nat, N ≤ fuel → parse_fact src toks fuel i = .ok (.ok node, j)) ∧
    (∀ m : VarMap, ∃ ds, evaluate_node src node m = some (sevalFact f m, m, ds))

/-- Completeness/correspondence for a `('*' Fact)*` repetition: for any
left operand node whose value function is `va`, the `parse_term` inner
loop folds the repetition onto it and the result evaluates to the
specified left fold. -/
def PFactList (src : List Nat) (toks : List Token) (i : Nat) (fs : SFactList) (k : Nat) : Prop :=
  i ≤ k ∧ ∃ N : Nat, ∀ (lhs : Node) (va : VarMap → Int),
    (∀ m : VarMap, ∃ ds, evaluate_node src lhs m = some (va m, m, ds)) →
    ∃ node : Node,
      (∀ fuel : Nat, N ≤ fuel → parse_term_inner src toks fuel lhs i = .ok (.ok node, k)) ∧
      (∀ m : VarMap, ∃ ds, evaluate_node src node m = some (sevalFactList (va m) fs m, m, ds))

/-- Completeness/correspondence for a `Term` derivation. -/
def PTerm (src : List Nat) (toks : List Token) (i : Nat) (t : STerm) (j : Nat) : Prop :=
  i < j ∧ ∃ (node : Node) (N : Nat),
    (∀ fuel : Nat, N ≤ fuel → parse_term src toks fuel i = .ok (.ok node, j)) ∧
    (∀ m : VarMap, ∃ ds, evaluate_node src node m = some (sevalTerm t m, m, ds))

/-- Completeness/correspondence for a `(('+' | '-') Term)*` repetition,
via the `parse_expr` inner loop. -/
def PTermList (src : List Nat) (toks : List Token) (i : Nat) (ts : STermList) (k : Nat) : Prop :=
  i ≤ k ∧ ∃ N : Nat, ∀ (lhs : Node) (va : VarMap → Int),
    (∀ m : VarMap, ∃ ds, evaluate_node src lhs m = some (va m, m, ds)) →
    ∃ node : Node,
      (∀ fuel : Nat, N ≤ fuel → parse_expr_inner src toks fuel lhs i = .ok (.ok node, k)) ∧
      (∀ m : VarMap, ∃ ds, evaluate_node src node m = some (sevalTermList (va m) ts m, m, ds))

/-- Completeness/correspondence for an `Expression` derivation. -/
def PExpr (src : List Nat) (toks : List Token) (i : Nat) (e : SExpr) (j : Nat) : Prop :=
  i < j ∧ ∃ (node : Node) (N : Nat),
    (∀ fuel : Nat, N ≤ fuel → parse_expr src toks fuel i = .ok (.ok node, j)) ∧
    (∀ m : VarMap, ∃ ds, evaluate_node src node m = some (sevalExpr e m, m, ds))

end Toy

namespace Toy
set_option maxHeartbeats 1000000

/-- Joint parser-completeness and evaluator-correspondence theorem over
`Expression` derivations, by mutual induction on the derivation. -/
theorem exprD_complete (src : List Nat) (toks : List Token) :
    ∀ {i : Nat} {e : SExpr} {j : Nat}, ExprD src toks i e j → PExpr src toks i e j := by
  intro i e j hd
  induction hd using ExprD.rec
    (motive_1 := fun i f j _ => PFact src toks i f j)
    (motive_2 := fun i fs k _ => PFactList src toks i fs k)
    (motive_3 := fun i t j _ => PTerm src toks i t j)
    (motive_4 := fun i ts k _ => PTermList src toks i ts k)
  -- `Fact := Literal`
  next i t n hget hkind hval =>
    refine ⟨Nat.lt_succ_self i, .literal ⟨n⟩, 1, ?_, ?_⟩
    · intro fuel hf
      obtain ⟨g, rfl⟩ : ∃ g, fuel = g + 1 := ⟨fuel - 1, by omega⟩
      have hc : current_token toks i = some t := hget
      simp [parse_fact, hc, hkind, advanceTok_eq hget,
        valid_no_leading_zero _ _ hval, parse_isize_of_valid _ _ hval]
    · intro m
      exact ⟨[], rfl⟩
  -- `Fact := Identifier`
  next i t hget hkind =>
    refine ⟨Nat.lt_succ_self i,
      .identifier ⟨slice src t.tokStart t.tokStop, t.tokStart, t.tokStop, t.line⟩, 1, ?_, ?_⟩
    · intro fuel hf
      obtain ⟨g, rfl⟩ : ∃ g, fuel = g + 1 := ⟨fuel - 1, by omega⟩
      have hc : current_token toks i = some t := hget
      simp [parse_fact, hc, hkind, advanceTok_eq hget]
    · intro m
      simp only [evaluate_node, sevalFact]
      cases hl : lookupVar m (slice src t.tokStart t.tokStop) <;> simp [hl]
  -- `Fact := '(' Expression ')'`
  next i j t u e hget hkind hde hgetu hkindu ihe =>
    obtain ⟨hij, nodeE, Ne, hpe, heve⟩ := ihe
    refine ⟨by omega, .fact nodeE, Ne + 1, ?_, ?_⟩
    · intro fuel hf
      obtain ⟨g, rfl⟩ : ∃ g, fuel = g + 1 := ⟨fuel - 1, by omega⟩
      have hc : current_token toks i = some t := hget
      have hcu : current_token toks j = some u := hgetu
      simp [parse_fact, hc, hkind, advanceTok_eq hget, hpe g (by omega), hcu, hkindu,
        advanceTok_eq hgetu]
    · intro m
      obtain ⟨ds, hds⟩ := heve m
      exact ⟨ds, by simpa [evaluate_node, sevalFact] using hds⟩
  -- `Fact := '-' Fact`
  next i j t f hget hkind hdf ihf =>
    obtain ⟨hij, nodeF, Nf, hpf, hevf⟩ := ihf
    refine ⟨by omega, .fact (.unaryOperator .minus nodeF), Nf + 1, ?_, ?_⟩
    · intro fuel hf
      obtain ⟨g, rfl⟩ : ∃ g, fuel = g + 1 := ⟨fuel - 1, by omega⟩
      have hc : current_token toks i = some t := hget
      simp [parse_fact, hc, hkind, advanceTok_eq hget, hpf g (by omega)]
    · intro m
      obtain ⟨ds, hds⟩ := hevf m
      exact ⟨ds, by simp [evaluate_node, hds, sevalFact]⟩
  -- `Fact := '+' Fact`
  next i j t f hget hkind hdf ihf =>
    obtain ⟨hij, nodeF, Nf, hpf, hevf⟩ := ihf
    refine ⟨by omega, .fact (.unaryOperator .plus nodeF), Nf + 1, ?_, ?_⟩
    · intro fuel hf
      obtain ⟨g, rfl⟩ : ∃ g, fuel = g + 1 := ⟨fuel - 1, by omega⟩
      have hc : current_token toks i = some t := hget
      simp [parse_fact, hc, hkind, advanceTok_eq hget, hpf g (by omega)]
    · intro m
      obtain ⟨ds, hds⟩ := hevf m
      exact ⟨ds, by simp [evaluate_node, hds, sevalFact]⟩
  -- `('*' Fact)*` empty
  next i hne =>
    refine ⟨Nat.le_refl i, 1, ?_⟩
    intro lhs va hva
    refine ⟨lhs, ?_, ?_⟩
    · intro fuel hf
      obtain ⟨g, rfl⟩ : ∃ g, fuel = g + 1 := ⟨fuel - 1, by omega⟩
      simp only [parse_term_inner]
      split
      · rename_i hstar
        exact absurd hstar hne
      · rfl
    · intro m
      obtain ⟨ds, hds⟩ := hva m
      exact ⟨ds, by simpa [sevalFactList] using hds⟩
  -- `('*' Fact)*` step
  next i j k t f fs hget hkind hdf hdfs ihf ihfs =>
    obtain ⟨hij, nodeF, Nf, hpf, hevf⟩ := ihf
    obtain ⟨hjk, Nfs, hfs⟩ := ihfs
    refine ⟨by omega, max Nf Nfs + 1, ?_⟩
    intro lhs va hva
    have hva' : ∀ m, ∃ ds, evaluate_node src (.term lhs .multiply nodeF) m =
        some (wrap64 (va m * sevalFact f m), m, ds) := by
      intro m
      obtain ⟨d1, h1⟩ := hva m
      obtain ⟨d2, h2⟩ := hevf m
      exact ⟨d1 ++ d2, by simp [evaluate_node, h1, h2]⟩
    obtain ⟨node, hparse, heval⟩ :=
      hfs (.term lhs .multiply nodeF) (fun m => wrap64 (va m * sevalFact f m)) hva'
    refine ⟨node, ?_, ?_⟩
    · intro fuel hf
      obtain ⟨g, rfl⟩ : ∃ g, fuel = g + 1 := ⟨fuel - 1, by omega⟩
      have hc : current_token toks i = some t := hget
      simp only [parse_term_inner, hc, Option.map_some', hkind, advanceTok_eq hget,
        hpf g (by omega)]
      exact hparse g (by omega)
    · intro m
      obtain ⟨ds, hds⟩ := heval m
      exact ⟨ds, by simpa [sevalFactList] using hds⟩
  -- `Term := Fact ('*' Fact)*`
  next i j k f fs hdf hdfs ihf ihfs =>
    obtain ⟨hij, nodeF, Nf, hpf, hevf⟩ := ihf
    obtain ⟨hjk, Nfs, hfs⟩ := ihfs
    obtain ⟨node, hparse, heval⟩ := hfs nodeF (fun m => sevalFact f m) hevf
    refine ⟨by omega, node, max Nf Nfs + 1, ?_, ?_⟩
    · intro fuel hf
      obtain ⟨g, rfl⟩ : ∃ g, fuel = g + 1 := ⟨fuel - 1, by omega⟩
      simp only [parse_term, hpf g (by omega)]
      exact hparse g (by omega)
    · intro m
      obtain ⟨ds, hds⟩ := heval m
      exact ⟨ds, by simpa [sevalTerm] using hds⟩
  -- `(('+' | '-') Term)*` empty
  next i hne =>
    refine ⟨Nat.le_refl i, 1, ?_⟩
    intro lhs va hva
    refine ⟨lhs, ?_, ?_⟩
    · intro fuel hf
      obtain ⟨g, rfl⟩ : ∃ g, fuel = g + 1 := ⟨fuel - 1, by omega⟩
      have hne' : ¬((current_token toks i).map Token.kind = some .plus ∨
          (current_token toks i).map Token.kind = some .minus) := hne
      simp only [parse_expr_inner]
      rw [if_neg hne']
    · intro m
      obtain ⟨ds, hds⟩ := hva m
      exact ⟨ds, by simpa [sevalTermList] using hds⟩
  -- `(('+' | '-') Term)*` step with `+`
  next i j k u t ts hget hkind hdt hdts iht ihts =>
    obtain ⟨hij, nodeT, Nt, hpt, hevt⟩ := iht
    obtain ⟨hjk, Nts, hts⟩ := ihts
    refine ⟨by omega, max Nt Nts + 1, ?_⟩
    intro lhs va hva
    have hva' : ∀ m, ∃ ds, evaluate_node src (.term lhs .plus nodeT) m =
        some (wrap64 (va m + sevalTerm t m), m, ds) := by
      intro m
      obtain ⟨d1, h1⟩ := hva m
      obtain ⟨d2, h2⟩ := hevt m
      exact ⟨d1 ++ d2, by simp [evaluate_node, h1, h2]⟩
    obtain ⟨node, hparse, heval⟩ :=
      hts (.term lhs .plus nodeT) (fun m => wrap64 (va m + sevalTerm t m)) hva'
    refine ⟨node, ?_, ?_⟩
    · intro fuel hf
      obtain ⟨g, rfl⟩ : ∃ g, fuel = g + 1 := ⟨fuel - 1, by omega⟩
      have hc : current_token toks i = some u := hget
      simp [parse_expr_inner, hc, hkind, advanceTok_eq hget, hpt g (by omega)]
      exact hparse g (by omega)
    · intro m
      obtain ⟨ds, hds⟩ := heval m
      exact ⟨ds, by simpa [sevalTermList] using hds⟩
  -- `(('+' | '-') Term)*` step with `-`
  next i j k u t ts hget hkind hdt hdts iht ihts =>
    obtain ⟨hij, nodeT, Nt, hpt, hevt⟩ := iht
    obtain ⟨hjk, Nts, hts⟩ := ihts
    refine ⟨by omega, max Nt Nts + 1, ?_⟩
    intro lhs va hva
    have hva' : ∀ m, ∃ ds, evaluate_node src (.term lhs .minus nodeT) m =
        some (wrap64 (va m - sevalTerm t m), m, ds) := by
      intro m
      obtain ⟨d1, h1⟩ := hva m
      obtain ⟨d2, h2⟩ := hevt m
      exact ⟨d1 ++ d2, by simp [evaluate_node, h1, h2]⟩
    obtain ⟨node, hparse, heval⟩ :=
      hts (.term lhs .minus nodeT) (fun m => wrap64 (va m - sevalTerm t m)) hva'
    refine ⟨node, ?_, ?_⟩
    · intro fuel hf
      obtain ⟨g, rfl⟩ : ∃ g, fuel = g + 1 := ⟨fuel - 1, by omega⟩
      have hc : current_token toks i = some u := hget
      simp [parse_expr_inner, hc, hkind, advanceTok_eq hget, hpt g (by omega)]
      exact hparse g (by omega)
    · intro m
      obtain ⟨ds, hds⟩ := heval m
      exact ⟨ds, by simpa [sevalTermList] using hds⟩
  -- `Expression := Term (('+' | '-') Term)*`
  next i j k t ts hdt hdts iht ihts =>
    obtain ⟨hij, nodeT, Nt, hpt, hevt⟩ := iht
    obtain ⟨hjk, Nts, hts⟩ := ihts
    obtain ⟨node, hparse, heval⟩ := hts nodeT (fun m => sevalTerm t m) hevt
    refine ⟨by omega, .expression node, max Nt Nts + 1, ?_, ?_⟩
    · intro fuel hf
      obtain ⟨g, rfl⟩ : ∃ g, fuel = g + 1 := ⟨fuel - 1, by omega⟩
      simp only [parse_expr, hpt g (by omega), hparse g (by omega)]
    · intro m
      obtain ⟨ds, hds⟩ := heval m
      exact ⟨ds, by simpa [evaluate_node, sevalExpr] using hds⟩

end Toy

namespace Toy

/-! ### Store lemmas and the assignment-loop steps -/

/-- Inserting a binding makes its key readable. -/
theorem lookup_insertVar_self (m : VarMap) (k : List Nat) (v : Int) :
    lookupVar (insertVar m k v) k = some v := by
  induction m with
  | nil => simp [insertVar, lookupVar]
  | cons p rest ih =>
    obtain ⟨k', v'⟩ := p
    by_cases h : k' = k
    · simp [insertVar, lookupVar, h]
    · simp [insertVar, lookupVar, h, ih]

/-- Inserting any binding keeps every bound key bound. -/
theorem lookup_insertVar_preserve (m : VarMap) (k k' : List Nat) (w : Int)
    (h : ∃ v, lookupVar m k = some v) :
    ∃ v, lookupVar (insertVar m k' w) k = some v := by
  by_cases hk : k' = k
  · subst hk
    exact ⟨w, lookup_insertVar_self m k' w⟩
  · induction m with
    | nil =>
      obtain ⟨v, hv⟩ := h
      simp [lookupVar] at hv
    | cons p rest ih =>
      obtain ⟨k'', v''⟩ := p
      by_cases h2 : k'' = k'
      · subst h2
        obtain ⟨v, hv⟩ := h
        rw [lookupVar, if_neg hk] at hv
        exact ⟨v, by simp [insertVar, lookupVar, hk, hv]⟩
      · by_cases h3 : k'' = k
        · have hk' : ¬k = k' := fun hh => hk hh.symm
          exact ⟨v'', by simp [insertVar, lookupVar, h2, h3, hk']⟩
        · obtain ⟨v, hv⟩ := h
          simp only [lookupVar, if_neg h3] at hv
          obtain ⟨v2, hv2⟩ := ih ⟨v, hv⟩
          exact ⟨v2, by simp [insertVar, lookupVar, h2, h3, hv2]⟩

/-- Running more specified statements keeps every bound key bound. -/
theorem sevalProg_preserve (ps : SProg) (m : VarMap) (k : List Nat)
    (h : ∃ v, lookupVar m k = some v) :
    ∃ v, lookupVar (sevalProg ps m) k = some v := by
  induction ps generalizing m with
  | nil => exact h
  | cons s rest ih => exact ih _ (lookup_insertVar_preserve _ _ _ _ h)

/-- After a specified program runs, every statement's left-hand-side name
is bound. -/
theorem sevalProg_binds (ps : SProg) (m : VarMap) :
    ∀ s ∈ ps, ∃ v : Int, lookupVar (sevalProg ps m) s.name = some v := by
  induction ps generalizing m with
  | nil => intro s hs; exact absurd hs (List.not_mem_nil s)
  | cons s0 rest ih =>
    intro s hs
    rcases List.mem_cons.mp hs with h | h
    · subst h
      exact sevalProg_preserve rest _ _ ⟨_, lookup_insertVar_self m s.name (sevalExpr s.rhs m)⟩
    · exact ih _ s h

/-- The assignment loop returns empty-handed at the end-of-file token. -/
theorem parse_assignment_at_eof {src : List Nat} {toks : List Token} {i g : Nat} {t : Token}
    (hget : toks.get? i = some t) (hkind : t.kind = .endOfFile) :
    parse_assignment src toks (g + 1) i = .ok ([], [], i) := by
  have hc : current_token toks i = some t := hget
  simp [parse_assignment, hc, hkind]

/-- One fully valid `Identifier '=' Expression ';'` statement takes the
assignment loop straight to the next statement, contributing one
`Assignment` node and no diagnostics. -/
theorem parse_assignment_step {src : List Nat} {toks : List Token}
    {i j g : Nat} {t u v : Token} {nodeE : Node}
    (hgt : toks.get? i = some t) (ht : t.kind = .identifier)
    (hgu : toks.get? (i + 1) = some u) (hu : u.kind = .equal)
    (he : parse_expr src toks (g + 1) (i + 2) = .ok (.ok nodeE, j))
    (hgv : toks.get? j = some v) (hv : v.kind = .semicolon)
    (hj : 0 < j) :
    parse_assignment src toks (g + 2) i =
      (match parse_assignment src toks g (j + 1) with
       | .ok (restAs, restErrs, posF) =>
         .ok (.assignment
            (.identifier ⟨slice src t.tokStart t.tokStop, t.tokStart, t.tokStop, t.line⟩)
            nodeE :: restAs, restErrs, posF)
       | .panicked => .panicked
       | .fuelOut => .fuelOut) := by
  have hc : current_token toks i = some t := hgt
  have hcu : current_token toks (i + 1) = some u := hgu
  have hcv : current_token toks j = some v := hgv
  have hwlt : j - 1 < toks.length := by
    have := get_lt_length hgv
    omega
  have hprev : previous_token_unwrap toks j = .ok (toks.get ⟨j - 1, hwlt⟩) := by
    unfold previous_token_unwrap
    rw [if_neg (Nat.pos_iff_ne_zero.mp hj), List.get?_eq_get hwlt]
  have hadv2 : advanceTok toks (i + 1) = i + 2 := by rw [advanceTok_eq hgu]
  simp only [parse_assignment, hc]
  simp [ht, hu, hcu, advanceTok_eq hgt, hadv2, he,
    parse_assignment_tail, hprev, hcv, hv, advanceTok_eq hgv]

end Toy

namespace Toy

/-- Completeness/correspondence for the assignment loop over a program
derivation: the loop consumes the derived statements with no diagnostics,
stopping at the end-of-file token, and the collected `Assignment` nodes
evaluate any store to the specified final store. -/
def PProg (src : List Nat) (toks : List Token) (i : Nat) (ps : SProg) (k : Nat) : Prop :=
  (∃ tf : Token, toks.get? k = some tf ∧ tf.kind = .endOfFile) ∧
  ∃ N : Nat, ∀ fuel : Nat, N ≤ fuel →
    ∃ asNodes : List Node,
      parse_assignment src toks fuel i = .ok (asNodes, [], k) ∧
      ∀ m : VarMap, ∃ ds,
        evaluate_node.goProgram src asNodes m = some (0, sevalProg ps m, ds)

/-- Parser completeness and evaluator correspondence over program
derivations, by induction on the derivation. -/
theorem progD_complete (src : List Nat) (toks : List Token) :
    ∀ {i : Nat} {ps : SProg} {k : Nat}, ProgD src toks i ps k → PProg src toks i ps k := by
  intro i ps k hd
  induction hd with
  | nil hget hkind =>
    refine ⟨⟨_, hget, hkind⟩, 1, ?_⟩
    intro fuel hf
    obtain ⟨g, rfl⟩ : ∃ g, fuel = g + 1 := ⟨fuel - 1, by omega⟩
    exact ⟨[], parse_assignment_at_eof hget hkind, fun m => ⟨[], rfl⟩⟩
  | cons hs hp ih =>
    obtain ⟨heof, Np, hrest⟩ := ih
    rcases hs with ⟨hgt, ht, hgu, hu, hde, hgv, hv⟩
    rename_i j0 t0 u0 v0 e0
    obtain ⟨hij, nodeE, Ne, hpe, heve⟩ := exprD_complete src toks hde
    refine ⟨heof, max Ne Np + 2, ?_⟩
    intro fuel hf
    obtain ⟨g, rfl⟩ : ∃ g, fuel = g + 2 := ⟨fuel - 2, by omega⟩
    obtain ⟨restAs, hrestEq, hrestEv⟩ := hrest g (by omega)
    refine ⟨.assignment
        (.identifier ⟨slice src t0.tokStart t0.tokStop, t0.tokStart, t0.tokStop, t0.line⟩)
        nodeE :: restAs, ?_, ?_⟩
    · rw [parse_assignment_step hgt ht hgu hu (hpe (g + 1) (by omega)) hgv hv (by omega),
        hrestEq]
    · intro m
      obtain ⟨d1, h1⟩ := heve m
      obtain ⟨d2, h2⟩ :=
        hrestEv (insertVar m (slice src t0.tokStart t0.tokStop) (sevalExpr e0 m))
      refine ⟨d1 ++ d2, ?_⟩
      simp [evaluate_node.goProgram, evaluate_node, h1, h2, sevalProg, sevalStmt]

end Toy

namespace Toy

/-- The AST the parser produces for `a = (1 + 2) * 3;`. -/
def c1progA : Node :=
  .program [.assignment (.identifier ⟨[97], 0, 1, 1⟩)
    (.expression (.term
      (.fact (.expression (.term (.literal ⟨1⟩) .plus (.literal ⟨2⟩))))
      .multiply (.literal ⟨3⟩)))]

/-- The AST the parser produces for `a = -(1+2)*3;`. -/
def c1progB : Node :=
  .program [.assignment (.identifier ⟨[97], 0, 1, 1⟩)
    (.expression (.term
      (.fact (.unaryOperator .minus
        (.fact (.expression (.term (.literal ⟨1⟩) .plus (.literal ⟨2⟩))))))
      .multiply (.literal ⟨3⟩)))]

/-- C1: for every syntactically valid program (every derivation of
`name = <expr>;` statements from the token stream, with in-range
literals), the parser succeeds with no diagnostics and the evaluator
computes exactly the specified semantics — `*` before `+`/`-`,
left-to-right association (the left folds in `sevalTerm`/`sevalExpr`),
parentheses tightest, unary sign on the tightest-binding operand, 64-bit
wrapping — and the final store binds every statement's left-hand-side
name; in particular `a = (1 + 2) * 3;` binds `a` to `9` and
`a = -(1+2)*3;` binds `a` to `-9`. -/
theorem valid_programs_evaluate_per_spec
    (src : List Nat) (toks : List Token) (ps : SProg) (k : Nat)
    (hd : ProgD src toks 0 ps k) :
    (∃ N : Nat, ∀ fuel : Nat, N ≤ fuel →
      ∃ prog : Node,
        parse_program src toks fuel = .ok (prog, []) ∧
        (∀ m : VarMap, ∃ ds, evaluate_node src prog m = some (0, sevalProg ps m, ds)) ∧
        (∃ mF ds, evaluate src prog = some (mF, ds) ∧ mF = sevalProg ps [] ∧
          ∀ s ∈ ps, ∃ v : Int, lookupVar mF s.name = some v)) ∧
    (parse_src "a = (1 + 2) * 3;" 32 = .ok (c1progA, []) ∧
      evaluate (str2bytes "a = (1 + 2) * 3;") c1progA = some ([([97], 9)], [])) ∧
    (parse_src "a = -(1+2)*3;" 32 = .ok (c1progB, []) ∧
      evaluate (str2bytes "a = -(1+2)*3;") c1progB = some ([([97], -9)], [])) := by
  refine ⟨?_, ⟨?_, ?_⟩, ⟨?_, ?_⟩⟩
  · obtain ⟨⟨tf, hgf, hkf⟩, N, h⟩ := progD_complete src toks hd
    refine ⟨N, ?_⟩
    intro fuel hf
    obtain ⟨asNodes, hpa, hev⟩ := h fuel hf
    refine ⟨.program asNodes, ?_, ?_, ?_⟩
    · have hcf : current_token toks k = some tf := hgf
      simp [parse_program, hpa, hcf, hkf]
    · intro m
      obtain ⟨ds, hds⟩ := hev m
      exact ⟨ds, hds⟩
    · obtain ⟨ds, hds⟩ := hev []
      refine ⟨sevalProg ps [], ds, ?_, rfl, sevalProg_binds ps []⟩
      simp only [evaluate]
      rw [show evaluate_node src (.program asNodes) [] =
        evaluate_node.goProgram src asNodes [] from rfl, hds]
  · have hlex : lex (str2bytes "a = (1 + 2) * 3;") =
        [⟨.identifier, 0, 1, 1⟩, ⟨.equal, 2, 3, 1⟩, ⟨.leftParen, 4, 5, 1⟩,
          ⟨.literal, 5, 6, 1⟩, ⟨.plus, 7, 8, 1⟩, ⟨.literal, 9, 10, 1⟩,
          ⟨.rightParen, 10, 11, 1⟩, ⟨.star, 12, 13, 1⟩, ⟨.literal, 14, 15, 1⟩,
          ⟨.semicolon, 15, 16, 1⟩, ⟨.endOfFile, 16, 16, 1⟩] := rfl
    show parse_program (str2bytes "a = (1 + 2) * 3;")
      (lex (str2bytes "a = (1 + 2) * 3;")) 32 = .ok (c1progA, [])
    rw [hlex]
    rfl
  · rfl
  · have hlex : lex (str2bytes "a = -(1+2)*3;") =
        [⟨.identifier, 0, 1, 1⟩, ⟨.equal, 2, 3, 1⟩, ⟨.minus, 4, 5, 1⟩,
          ⟨.leftParen, 5, 6, 1⟩, ⟨.literal, 6, 7, 1⟩, ⟨.plus, 7, 8, 1⟩,
          ⟨.literal, 8, 9, 1⟩, ⟨.rightParen, 9, 10, 1⟩, ⟨.star, 10, 11, 1⟩,
          ⟨.literal, 11, 12, 1⟩, ⟨.semicolon, 12, 13, 1⟩, ⟨.endOfFile, 13, 13, 1⟩] := rfl
    show parse_program (str2bytes "a = -(1+2)*3;")
      (lex (str2bytes "a = -(1+2)*3;")) 32 = .ok (c1progB, [])
    rw [hlex]
    rfl
  · rfl

end Toy

namespace Toy

/-- Spec-validity of a literal byte string is decidable (so concrete
derivations can be built by `decide`). -/
instance (bs : List Nat) (n : Int) : Decidable (validLiteralBytes bs n) := by
  unfold validLiteralBytes
  infer_instance

/-- The specified program derived from `a=1;`: one statement binding `a`
(the byte string at `[0, 1)`) to the literal `1`. -/
def c1ps : SProg :=
  [⟨slice (str2bytes "a=1;") 0 1, .mk (.mk (.lit 1) .nil) .nil⟩]

/-- Witness for `valid_programs_evaluate_per_spec`: the concrete input
`a=1;` admits a program derivation, and the theorem's conclusion holds
at it. -/
theorem valid_programs_evaluate_per_spec_witness :
    ProgD (str2bytes "a=1;") (lex (str2bytes "a=1;")) 0 c1ps 4 ∧
    ((∃ N : Nat, ∀ fuel : Nat, N ≤ fuel →
      ∃ prog : Node,
        parse_program (str2bytes "a=1;") (lex (str2bytes "a=1;")) fuel = .ok (prog, []) ∧
        (∀ m : VarMap, ∃ ds,
          evaluate_node (str2bytes "a=1;") prog m = some (0, sevalProg c1ps m, ds)) ∧
        (∃ mF ds, evaluate (str2bytes "a=1;") prog = some (mF, ds) ∧
          mF = sevalProg c1ps [] ∧
          ∀ s ∈ c1ps, ∃ v : Int, lookupVar mF s.name = some v)) ∧
    (parse_src "a = (1 + 2) * 3;" 32 = .ok (c1progA, []) ∧
      evaluate (str2bytes "a = (1 + 2) * 3;") c1progA = some ([([97], 9)], [])) ∧
    (parse_src "a = -(1+2)*3;" 32 = .ok (c1progB, []) ∧
      evaluate (str2bytes "a = -(1+2)*3;") c1progB = some ([([97], -9)], []))) := by
  have hd : ProgD (str2bytes "a=1;") (lex (str2bytes "a=1;")) 0 c1ps 4 := by
    refine ProgD.cons ?_ (ProgD.nil (t := ⟨.endOfFile, 4, 4, 1⟩) rfl rfl)
    exact StmtD.mk (t := ⟨.identifier, 0, 1, 1⟩) (u := ⟨.equal, 1, 2, 1⟩)
      (v := ⟨.semicolon, 3, 4, 1⟩) rfl rfl rfl rfl
      (ExprD.mk
        (TermD.mk (FactD.lit (t := ⟨.literal, 2, 3, 1⟩) rfl rfl (by decide))
          (FactListD.nil (by decide)))
        (TermListD.nil (by decide)))
      rfl rfl
  exact ⟨hd, valid_programs_evaluate_per_spec _ _ _ _ hd⟩

end Toy
